import Mathlib

/-!
Verification of the AsmJSModule core (src/js/src/jit/AsmJSModule.cpp):
symbol-index lookups, finish-time size computation, heap binding, static
linking, profiling patching, cloning, and the persistent-cache codec.

The definitions below are shallow embeddings of the C++ source.  Types and
constants that live in headers not present under src/ (AsmJSModule.h,
mozilla/BinarySearch.h, AsmJSValidate.h) are modelled from the spec and
marked as such in their doc comments.
-/

namespace AsmJS

/-- Modelled from the spec: the kind tag of a code range
(CodeRange tagged variant: Function, Entry, Inline, Thunk); the
enumeration itself lives in AsmJSModule.h which is not under src/. -/
inductive CodeRangeKind where
  | Function
  | Entry
  | Inline
  | Thunk
deriving DecidableEq, Repr

/-- Modelled from the spec: a CodeRange record
`{begin, end, profilingReturn}` offsets plus the tagged-variant payload
(entry, profilingJump, profilingEpilogue deltas, nameIndex, lineNumber,
builtin thunk target).  The struct layout is in AsmJSModule.h (not under
src/); field names follow the source accessors used in AsmJSModule.cpp. -/
structure CodeRange where
  kind_ : CodeRangeKind
  nameIndex_ : Nat
  lineNumber_ : Nat
  begin_ : Nat
  profilingReturn_ : Nat
  end_ : Nat
  beginToEntry_ : Nat
  profilingJumpToProfilingReturn_ : Nat
  profilingEpilogueToProfilingReturn_ : Nat
  thunkTarget_ : Nat
deriving DecidableEq, Repr

instance : Inhabited CodeRange :=
  ⟨⟨CodeRangeKind.Entry, 0, 0, 0, 0, 0, 0, 0, 0, 0⟩⟩

/-- Accessor CodeRange::entry(): begin + beginToEntry delta. -/
def CodeRange.entry (r : CodeRange) : Nat :=
  r.begin_ + r.beginToEntry_

/-- Accessor CodeRange::profilingJump(): profilingReturn minus stored delta. -/
def CodeRange.profilingJump (r : CodeRange) : Nat :=
  r.profilingReturn_ - r.profilingJumpToProfilingReturn_

/-- Accessor CodeRange::profilingEpilogue(): profilingReturn minus stored delta. -/
def CodeRange.profilingEpilogue (r : CodeRange) : Nat :=
  r.profilingReturn_ - r.profilingEpilogueToProfilingReturn_

/-- Accessor CodeRange::isFunction(). -/
def CodeRange.isFunction (r : CodeRange) : Bool :=
  r.kind_ = CodeRangeKind.Function

/-- Accessor CodeRange::isThunk(). -/
def CodeRange.isThunk (r : CodeRange) : Bool :=
  r.kind_ = CodeRangeKind.Thunk

/-- Modelled from the spec: a CallSite record, a return-address offset
tagged with a kind (the struct lives in jit/shared headers not under
src/).  Kind 0 plays the role of CallSite::Relative, matching the single
kind test made in AsmJSModule.cpp. -/
structure CallSite where
  kind_ : Nat
  returnAddressOffset_ : Nat
  stackDepth_ : Nat
deriving DecidableEq, Repr

instance : Inhabited CallSite := ⟨⟨0, 0, 0⟩⟩

/-- Numeric value of CallSite::Relative used by setProfilingEnabled. -/
def CallSiteKindRelative : Nat := 0

/-- Modelled from the spec: mozilla::BinarySearch (mfbt header, not under
src/): binary search of the index interval [lo, hi) driven by a
three-way comparison of the target against the element at each probed
index; returns the matching index when the comparison answers eq, and
none once the interval is empty.  The probe index is
lo + (hi - lo) / 2 and the loop narrows to [lo, mid) on lt and to
[mid+1, hi) on gt, exactly as in the header. -/
def binarySearchGo (cmp : Nat → Ordering) : Nat → Nat → Nat → Option Nat
  | 0, _, _ => none
  | fuel + 1, lo, hi =>
    if lo < hi then
      let mid := lo + (hi - lo) / 2
      match cmp mid with
      | Ordering.eq => some mid
      | Ordering.lt => binarySearchGo cmp fuel lo mid
      | Ordering.gt => binarySearchGo cmp fuel (mid + 1) hi
    else
      none

/-- Modelled from the spec: mozilla::BinarySearch (mfbt header, not
under src/): binary search of the index interval [lo, hi) driven by a
three-way comparison of the target against the element at each probed
index; returns the matching index when the comparison answers eq, and
none once the interval is empty.  The probe index is
lo + (hi - lo) / 2 and the loop narrows to [lo, mid) on lt and to
[mid+1, hi) on gt, exactly as in the header; the interval width bounds
the iteration count. -/
def binarySearch (cmp : Nat → Ordering) (lo hi : Nat) : Option Nat :=
  binarySearchGo cmp (hi - lo) lo hi

theorem binarySearchGo_sound (cmp : Nat → Ordering) :
    ∀ fuel lo hi m, binarySearchGo cmp fuel lo hi = some m →
      lo ≤ m ∧ m < hi ∧ cmp m = Ordering.eq := by
  intro fuel
  induction fuel with
  | zero =>
    intro lo hi m h
    exact absurd h (by simp [binarySearchGo])
  | succ fuel ih =>
    intro lo hi m h
    rw [binarySearchGo] at h
    by_cases hlt : lo < hi
    · rw [if_pos hlt] at h
      rcases hm : cmp (lo + (hi - lo) / 2) with _ | _ | _ <;>
        simp only [hm] at h
      · -- lt branch: recurse on [lo, mid)
        have := ih lo (lo + (hi - lo) / 2) m h
        exact ⟨this.1, by omega, this.2.2⟩
      · -- eq branch
        injection h with h
        subst h
        exact ⟨by omega, by omega, hm⟩
      · -- gt branch: recurse on [mid+1, hi)
        have := ih (lo + (hi - lo) / 2 + 1) hi m h
        exact ⟨by omega, this.2.1, this.2.2⟩
    · rw [if_neg hlt] at h
      exact absurd h (by simp)

theorem binarySearch_sound (cmp : Nat → Ordering) (lo hi m : Nat)
    (h : binarySearch cmp lo hi = some m) :
    lo ≤ m ∧ m < hi ∧ cmp m = Ordering.eq :=
  binarySearchGo_sound cmp (hi - lo) lo hi m h

theorem binarySearchGo_complete (cmp : Nat → Ordering) (hi0 : Nat)
    (hmlt : ∀ i k, i ≤ k → k < hi0 → cmp i = Ordering.lt → cmp k = Ordering.lt)
    (hmgt : ∀ i k, i ≤ k → k < hi0 → cmp k = Ordering.gt → cmp i = Ordering.gt) :
    ∀ fuel lo hi j, hi - lo ≤ fuel → hi ≤ hi0 → lo ≤ j → j < hi →
      cmp j = Ordering.eq →
      ∃ m, binarySearchGo cmp fuel lo hi = some m := by
  intro fuel
  induction fuel with
  | zero =>
    intro lo hi j hle hhi hjlo hjhi heq
    omega
  | succ fuel ih =>
    intro lo hi j hle hhi hjlo hjhi heq
    have hlt : lo < hi := by omega
    rw [binarySearchGo]
    rw [if_pos hlt]
    rcases hm : cmp (lo + (hi - lo) / 2) with _ | _ | _ <;>
      simp only [hm]
    · -- lt: the match index must be strictly below mid
      have hjmid : j < lo + (hi - lo) / 2 := by
        by_contra hge
        have := hmlt (lo + (hi - lo) / 2) j (by omega) (by omega) hm
        rw [heq] at this
        exact absurd this (by simp)
      exact ih lo (lo + (hi - lo) / 2) j (by omega) (by omega) hjlo hjmid heq
    · exact ⟨_, rfl⟩
    · -- gt: the match index must be strictly above mid
      have hjmid : lo + (hi - lo) / 2 < j := by
        by_contra hle2
        have := hmgt j (lo + (hi - lo) / 2) (by omega) (by omega) hm
        rw [heq] at this
        exact absurd this (by simp)
      exact ih (lo + (hi - lo) / 2 + 1) hi j (by omega) hhi (by omega) hjhi heq

theorem binarySearch_complete (cmp : Nat → Ordering) (lo hi j : Nat)
    (hmlt : ∀ i k, i ≤ k → k < hi → cmp i = Ordering.lt → cmp k = Ordering.lt)
    (hmgt : ∀ i k, i ≤ k → k < hi → cmp k = Ordering.gt → cmp i = Ordering.gt)
    (hjlo : lo ≤ j) (hjhi : j < hi) (heq : cmp j = Ordering.eq) :
    ∃ m, binarySearch cmp lo hi = some m :=
  binarySearchGo_complete cmp hi hmlt hmgt (hi - lo) lo hi j le_rfl le_rfl
    hjlo hjhi heq

/-- Three-way comparison of a pc offset against the code range at index i,
mirroring the operator== / operator< pair defined for
(size_t pcOffset, AsmJSModule::CodeRange) in AsmJSModule.cpp:
eq when begin <= pcOffset < end, lt when pcOffset < begin, gt otherwise.
The index is always in bounds when probed by the search. -/
def codeRangeCmp (rs : List CodeRange) (t : Nat) (i : Nat) : Ordering :=
  if h : i < rs.length then
    if rs[i].begin_ ≤ t ∧ t < rs[i].end_ then Ordering.eq
    else if t < rs[i].begin_ then Ordering.lt
    else Ordering.gt
  else Ordering.eq

theorem codeRangeCmp_eq_dite (rs : List CodeRange) (t i : Nat)
    (h : i < rs.length) :
    codeRangeCmp rs t i =
      (if rs[i].begin_ ≤ t ∧ t < rs[i].end_ then Ordering.eq
       else if t < rs[i].begin_ then Ordering.lt
       else Ordering.gt) := by
  unfold codeRangeCmp
  rw [dif_pos h]

/-- AsmJSModule::lookupCodeRange: computes the byte offset
target = pc - code base and binary-searches the code-range table. -/
def lookupCodeRange (rs : List CodeRange) (pc base : Nat) : Option CodeRange :=
  (binarySearch (codeRangeCmp rs (pc - base)) 0 rs.length).bind fun i => rs[i]?

/-- Validity of a code-range table as stated by the claim and asserted at
finish time: each range has begin <= end and the table is sorted by begin
with pairwise non-overlapping ranges (end of an earlier range at or
before begin of any later range). -/
def CodeRangesWF (rs : List CodeRange) : Prop :=
  (∀ r ∈ rs, r.begin_ ≤ r.end_) ∧
  List.Pairwise (fun a b => a.end_ ≤ b.begin_) rs

instance (rs : List CodeRange) : Decidable (CodeRangesWF rs) := by
  unfold CodeRangesWF
  infer_instance

theorem codeRangesWF_getElem_le (rs : List CodeRange) (hwf : CodeRangesWF rs)
    (i : Nat) (h : i < rs.length) : rs[i].begin_ ≤ rs[i].end_ :=
  hwf.1 rs[i] (List.getElem_mem h)

theorem codeRangesWF_sep (rs : List CodeRange) (hwf : CodeRangesWF rs)
    (i j : Nat) (hij : i < j) (hi : i < rs.length) (hj : j < rs.length) :
    rs[i].end_ ≤ rs[j].begin_ :=
  List.pairwise_iff_getElem.mp hwf.2 i j hi hj hij

theorem codeRangeCmp_mono_lt (rs : List CodeRange) (t : Nat)
    (hwf : CodeRangesWF rs) :
    ∀ i k, i ≤ k → k < rs.length →
      codeRangeCmp rs t i = Ordering.lt → codeRangeCmp rs t k = Ordering.lt := by
  intro i k hik hk hcmp
  have hi : i < rs.length := by omega
  rw [codeRangeCmp_eq_dite rs t i hi] at hcmp
  rw [codeRangeCmp_eq_dite rs t k hk]
  by_cases hc : rs[i].begin_ ≤ t ∧ t < rs[i].end_
  · rw [if_pos hc] at hcmp
    exact absurd hcmp (by simp)
  · rw [if_neg hc] at hcmp
    by_cases hl : t < rs[i].begin_
    · -- t below begin of range i; ranges at or after i start no earlier
      have hbk : rs[i].begin_ ≤ rs[k].begin_ := by
        rcases Nat.eq_or_lt_of_le hik with heq | hlt
        · subst heq; exact le_rfl
        · calc rs[i].begin_ ≤ rs[i].end_ := codeRangesWF_getElem_le rs hwf i hi
            _ ≤ rs[k].begin_ := codeRangesWF_sep rs hwf i k hlt hi hk
      have hck : ¬ (rs[k].begin_ ≤ t ∧ t < rs[k].end_) := by omega
      rw [if_neg hck, if_pos (by omega : t < rs[k].begin_)]
    · rw [if_neg hl] at hcmp
      exact absurd hcmp (by simp)

theorem codeRangeCmp_mono_gt (rs : List CodeRange) (t : Nat)
    (hwf : CodeRangesWF rs) :
    ∀ i k, i ≤ k → k < rs.length →
      codeRangeCmp rs t k = Ordering.gt → codeRangeCmp rs t i = Ordering.gt := by
  intro i k hik hk hcmp
  have hi : i < rs.length := by omega
  rw [codeRangeCmp_eq_dite rs t k hk] at hcmp
  rw [codeRangeCmp_eq_dite rs t i hi]
  by_cases hck : rs[k].begin_ ≤ t ∧ t < rs[k].end_
  · rw [if_pos hck] at hcmp
    exact absurd hcmp (by simp)
  · rw [if_neg hck] at hcmp
    by_cases hlk : t < rs[k].begin_
    · rw [if_pos hlk] at hcmp
      exact absurd hcmp (by simp)
    · -- t at or beyond end of range k; ranges at or before k end no later
      have htk : rs[k].end_ ≤ t := by omega
      have hei : rs[i].end_ ≤ rs[k].end_ := by
        rcases Nat.eq_or_lt_of_le hik with heq | hlt
        · subst heq; exact le_rfl
        · calc rs[i].end_ ≤ rs[k].begin_ := codeRangesWF_sep rs hwf i k hlt hi hk
            _ ≤ rs[k].end_ := codeRangesWF_getElem_le rs hwf k hk
      have hbi : rs[i].begin_ ≤ t := by
        have := codeRangesWF_getElem_le rs hwf i hi
        omega
      rw [if_neg (by omega : ¬ (rs[i].begin_ ≤ t ∧ t < rs[i].end_)),
        if_neg (by omega : ¬ t < rs[i].begin_)]

theorem lookupCodeRange_mem_of_some (rs : List CodeRange) (pc base : Nat)
    (r : CodeRange) (h : lookupCodeRange rs pc base = some r) :
    r ∈ rs ∧ r.begin_ ≤ pc - base ∧ pc - base < r.end_ := by
  unfold lookupCodeRange at h
  rcases hbs : binarySearch (codeRangeCmp rs (pc - base)) 0 rs.length with _ | i <;>
    rw [hbs] at h
  · exact absurd h (by simp)
  · rw [Option.some_bind] at h
    have hs := binarySearch_sound _ _ _ _ hbs
    have hi : i < rs.length := hs.2.1
    have hcmp := hs.2.2
    rw [codeRangeCmp_eq_dite rs (pc - base) i hi] at hcmp
    rw [List.getElem?_eq_getElem hi] at h
    injection h with h
    subst h
    by_cases hc : rs[i].begin_ ≤ pc - base ∧ pc - base < rs[i].end_
    · exact ⟨List.getElem_mem hi, hc.1, hc.2⟩
    · rw [if_neg hc] at hcmp
      by_cases hl : pc - base < rs[i].begin_ <;>
        first
          | (rw [if_pos hl] at hcmp; exact absurd hcmp (by simp))
          | (rw [if_neg hl] at hcmp; exact absurd hcmp (by simp))

theorem lookupCodeRange_finds (rs : List CodeRange) (pc base : Nat)
    (hwf : CodeRangesWF rs) (r : CodeRange) (hmem : r ∈ rs)
    (h1 : r.begin_ ≤ pc - base) (h2 : pc - base < r.end_) :
    ∃ r2, lookupCodeRange rs pc base = some r2 := by
  rcases List.mem_iff_getElem.mp hmem with ⟨j, hj, hjr⟩
  have hcmpj : codeRangeCmp rs (pc - base) j = Ordering.eq := by
    rw [codeRangeCmp_eq_dite rs (pc - base) j hj, hjr]
    rw [if_pos ⟨h1, h2⟩]
  rcases binarySearch_complete (codeRangeCmp rs (pc - base)) 0 rs.length j
      (codeRangeCmp_mono_lt rs (pc - base) hwf)
      (codeRangeCmp_mono_gt rs (pc - base) hwf)
      (Nat.zero_le j) hj hcmpj with ⟨m, hm⟩
  have hs := binarySearch_sound _ _ _ _ hm
  refine ⟨rs.get ⟨m, hs.2.1⟩, ?_⟩
  unfold lookupCodeRange
  rw [hm, Option.some_bind, List.getElem?_eq_getElem hs.2.1]
  rfl

theorem codeRanges_unique (rs : List CodeRange) (hwf : CodeRangesWF rs)
    (t : Nat) (r1 r2 : CodeRange) (h1 : r1 ∈ rs) (h2 : r2 ∈ rs)
    (hc1 : r1.begin_ ≤ t ∧ t < r1.end_) (hc2 : r2.begin_ ≤ t ∧ t < r2.end_) :
    r1 = r2 := by
  rcases List.mem_iff_getElem.mp h1 with ⟨i, hi, hir⟩
  rcases List.mem_iff_getElem.mp h2 with ⟨j, hj, hjr⟩
  rcases Nat.lt_trichotomy i j with hij | hij | hij
  · have := codeRangesWF_sep rs hwf i j hij hi hj
    rw [hir, hjr] at this
    omega
  · subst hij; rw [← hir, ← hjr]
  · have := codeRangesWF_sep rs hwf j i hij hj hi
    rw [hir, hjr] at this
    omega

/-- C1: on a finished module whose code-range table is sorted by begin
with pairwise non-overlapping ranges, lookupCodeRange(pc) returns the
unique CodeRange whose interval satisfies begin <= (pc - imageBase) < end
when such a range exists, and returns none when the offset pc - imageBase
falls in a gap between ranges or outside all ranges. -/
theorem lookupCodeRange_spec (rs : List CodeRange) (pc base : Nat)
    (hwf : CodeRangesWF rs) :
    ((∃ r ∈ rs, r.begin_ ≤ pc - base ∧ pc - base < r.end_) →
      ∃ r, lookupCodeRange rs pc base = some r ∧ r ∈ rs ∧
        r.begin_ ≤ pc - base ∧ pc - base < r.end_ ∧
        ∀ r2 ∈ rs, r2.begin_ ≤ pc - base → pc - base < r2.end_ → r2 = r) ∧
    ((∀ r ∈ rs, ¬ (r.begin_ ≤ pc - base ∧ pc - base < r.end_)) →
      lookupCodeRange rs pc base = none) := by
  constructor
  · rintro ⟨r, hmem, h1, h2⟩
    rcases lookupCodeRange_finds rs pc base hwf r hmem h1 h2 with ⟨r2, hr2⟩
    have hprop := lookupCodeRange_mem_of_some rs pc base r2 hr2
    exact ⟨r2, hr2, hprop.1, hprop.2.1, hprop.2.2,
      fun r3 hmem3 h31 h32 =>
        codeRanges_unique rs hwf (pc - base) r3 r2 hmem3 hprop.1
          ⟨h31, h32⟩ ⟨hprop.2.1, hprop.2.2⟩⟩
  · intro hnone
    rcases hlk : lookupCodeRange rs pc base with _ | r
    · rfl
    · have hprop := lookupCodeRange_mem_of_some rs pc base r hlk
      exact absurd ⟨hprop.2.1, hprop.2.2⟩ (hnone r hprop.1)

/-- Witness for C1 at a concrete table: two ranges [0,4) and [6,10); the
offset 2 is found in the first range and the offset 5 (in the gap) and 11
(outside) produce none. -/
theorem lookupCodeRange_spec_witness :
    CodeRangesWF
      [⟨CodeRangeKind.Entry, 0, 0, 0, 0, 4, 0, 0, 0, 0⟩,
       ⟨CodeRangeKind.Entry, 0, 0, 6, 0, 10, 0, 0, 0, 0⟩] ∧
    (∃ r, lookupCodeRange
      [⟨CodeRangeKind.Entry, 0, 0, 0, 0, 4, 0, 0, 0, 0⟩,
       ⟨CodeRangeKind.Entry, 0, 0, 6, 0, 10, 0, 0, 0, 0⟩] 102 100 = some r ∧
      r ∈ [⟨CodeRangeKind.Entry, 0, 0, 0, 0, 4, 0, 0, 0, 0⟩,
       ⟨CodeRangeKind.Entry, 0, 0, 6, 0, 10, 0, 0, 0, 0⟩] ∧
      r.begin_ ≤ 102 - 100 ∧ 102 - 100 < r.end_ ∧
      ∀ r2 ∈ [⟨CodeRangeKind.Entry, 0, 0, 0, 0, 4, 0, 0, 0, 0⟩,
       ⟨CodeRangeKind.Entry, 0, 0, 6, 0, 10, 0, 0, 0, 0⟩],
        r2.begin_ ≤ 102 - 100 → 102 - 100 < r2.end_ → r2 = r) ∧
    lookupCodeRange
      [⟨CodeRangeKind.Entry, 0, 0, 0, 0, 4, 0, 0, 0, 0⟩,
       ⟨CodeRangeKind.Entry, 0, 0, 6, 0, 10, 0, 0, 0, 0⟩] 105 100 = none := by
  refine ⟨by decide, ?_, ?_⟩
  · exact (lookupCodeRange_spec _ 102 100 (by decide)).1
      ⟨⟨CodeRangeKind.Entry, 0, 0, 0, 0, 4, 0, 0, 0, 0⟩, by decide, by decide, by decide⟩
  · exact (lookupCodeRange_spec _ 105 100 (by decide)).2 (by decide)

/-- Three-way comparison of a return-address offset against the call site
at index i, as performed by mozilla::BinarySearch on the
CallSiteRetAddrOffset view in AsmJSModule::lookupCallSite: exact equality
against callSites[i].returnAddressOffset(). -/
def callSiteCmp (cs : List CallSite) (t : Nat) (i : Nat) : Ordering :=
  if h : i < cs.length then
    if t = cs[i].returnAddressOffset_ then Ordering.eq
    else if t < cs[i].returnAddressOffset_ then Ordering.lt
    else Ordering.gt
  else Ordering.eq

theorem callSiteCmp_eq_dite (cs : List CallSite) (t i : Nat)
    (h : i < cs.length) :
    callSiteCmp cs t i =
      (if t = cs[i].returnAddressOffset_ then Ordering.eq
       else if t < cs[i].returnAddressOffset_ then Ordering.lt
       else Ordering.gt) := by
  unfold callSiteCmp
  rw [dif_pos h]

/-- AsmJSModule::lookupCallSite: computes the byte offset
target = returnAddress - code base and binary-searches the call-site
table for an exact returnAddressOffset match. -/
def lookupCallSite (cs : List CallSite) (pc base : Nat) : Option CallSite :=
  (binarySearch (callSiteCmp cs (pc - base)) 0 cs.length).bind fun i => cs[i]?

/-- Validity of a call-site table as stated by the claim: sorted by
returnAddressOffset with unique offsets, i.e. strictly increasing. -/
def CallSitesWF (cs : List CallSite) : Prop :=
  List.Pairwise (fun a b => a.returnAddressOffset_ < b.returnAddressOffset_) cs

instance (cs : List CallSite) : Decidable (CallSitesWF cs) := by
  unfold CallSitesWF
  infer_instance

theorem callSitesWF_sep (cs : List CallSite) (hwf : CallSitesWF cs)
    (i j : Nat) (hij : i < j) (hi : i < cs.length) (hj : j < cs.length) :
    cs[i].returnAddressOffset_ < cs[j].returnAddressOffset_ :=
  List.pairwise_iff_getElem.mp hwf i j hi hj hij

theorem callSiteCmp_mono_lt (cs : List CallSite) (t : Nat)
    (hwf : CallSitesWF cs) :
    ∀ i k, i ≤ k → k < cs.length →
      callSiteCmp cs t i = Ordering.lt → callSiteCmp cs t k = Ordering.lt := by
  intro i k hik hk hcmp
  have hi : i < cs.length := by omega
  rw [callSiteCmp_eq_dite cs t i hi] at hcmp
  rw [callSiteCmp_eq_dite cs t k hk]
  by_cases he : t = cs[i].returnAddressOffset_
  · rw [if_pos he] at hcmp
    exact absurd hcmp (by simp)
  · rw [if_neg he] at hcmp
    by_cases hl : t < cs[i].returnAddressOffset_
    · have hmono : cs[i].returnAddressOffset_ ≤ cs[k].returnAddressOffset_ := by
        rcases Nat.eq_or_lt_of_le hik with heq | hlt
        · subst heq; exact le_rfl
        · exact Nat.le_of_lt (callSitesWF_sep cs hwf i k hlt hi hk)
      rw [if_neg (by omega : ¬ t = cs[k].returnAddressOffset_),
        if_pos (by omega : t < cs[k].returnAddressOffset_)]
    · rw [if_neg hl] at hcmp
      exact absurd hcmp (by simp)

theorem callSiteCmp_mono_gt (cs : List CallSite) (t : Nat)
    (hwf : CallSitesWF cs) :
    ∀ i k, i ≤ k → k < cs.length →
      callSiteCmp cs t k = Ordering.gt → callSiteCmp cs t i = Ordering.gt := by
  intro i k hik hk hcmp
  have hi : i < cs.length := by omega
  rw [callSiteCmp_eq_dite cs t k hk] at hcmp
  rw [callSiteCmp_eq_dite cs t i hi]
  by_cases he : t = cs[k].returnAddressOffset_
  · rw [if_pos he] at hcmp
    exact absurd hcmp (by simp)
  · rw [if_neg he] at hcmp
    by_cases hl : t < cs[k].returnAddressOffset_
    · rw [if_pos hl] at hcmp
      exact absurd hcmp (by simp)
    · have hmono : cs[i].returnAddressOffset_ ≤ cs[k].returnAddressOffset_ := by
        rcases Nat.eq_or_lt_of_le hik with heq | hlt
        · subst heq; exact le_rfl
        · exact Nat.le_of_lt (callSitesWF_sep cs hwf i k hlt hi hk)
      rw [if_neg (by omega : ¬ t = cs[i].returnAddressOffset_),
        if_neg (by omega : ¬ t < cs[i].returnAddressOffset_)]

theorem lookupCallSite_mem_of_some (cs : List CallSite) (pc base : Nat)
    (c : CallSite) (h : lookupCallSite cs pc base = some c) :
    c ∈ cs ∧ c.returnAddressOffset_ = pc - base := by
  unfold lookupCallSite at h
  rcases hbs : binarySearch (callSiteCmp cs (pc - base)) 0 cs.length with _ | i <;>
    rw [hbs] at h
  · exact absurd h (by simp)
  · rw [Option.some_bind] at h
    have hs := binarySearch_sound _ _ _ _ hbs
    have hi : i < cs.length := hs.2.1
    have hcmp := hs.2.2
    rw [callSiteCmp_eq_dite cs (pc - base) i hi] at hcmp
    rw [List.getElem?_eq_getElem hi] at h
    injection h with h
    subst h
    by_cases he : pc - base = cs[i].returnAddressOffset_
    · exact ⟨List.getElem_mem hi, he.symm⟩
    · rw [if_neg he] at hcmp
      by_cases hl : pc - base < cs[i].returnAddressOffset_ <;>
        first
          | (rw [if_pos hl] at hcmp; exact absurd hcmp (by simp))
          | (rw [if_neg hl] at hcmp; exact absurd hcmp (by simp))

/-- C6: on a finished module whose call-site table is sorted by
returnAddressOffset with unique offsets, lookupCallSite(returnAddress)
returns the call site whose returnAddressOffset equals
returnAddress - imageBase exactly when one exists, and returns none when
no table entry has that exact offset. -/
theorem lookupCallSite_spec (cs : List CallSite) (pc base : Nat)
    (hwf : CallSitesWF cs) :
    ((∃ c ∈ cs, c.returnAddressOffset_ = pc - base) →
      ∃ c, lookupCallSite cs pc base = some c ∧ c ∈ cs ∧
        c.returnAddressOffset_ = pc - base ∧
        ∀ c2 ∈ cs, c2.returnAddressOffset_ = pc - base → c2 = c) ∧
    ((∀ c ∈ cs, c.returnAddressOffset_ ≠ pc - base) →
      lookupCallSite cs pc base = none) := by
  constructor
  · rintro ⟨c, hmem, hoff⟩
    rcases List.mem_iff_getElem.mp hmem with ⟨j, hj, hjc⟩
    have hcmpj : callSiteCmp cs (pc - base) j = Ordering.eq := by
      rw [callSiteCmp_eq_dite cs (pc - base) j hj, hjc, if_pos hoff.symm]
    rcases binarySearch_complete (callSiteCmp cs (pc - base)) 0 cs.length j
        (callSiteCmp_mono_lt cs (pc - base) hwf)
        (callSiteCmp_mono_gt cs (pc - base) hwf)
        (Nat.zero_le j) hj hcmpj with ⟨m, hm⟩
    have hs := binarySearch_sound _ _ _ _ hm
    have hres : lookupCallSite cs pc base = some (cs.get ⟨m, hs.2.1⟩) := by
      unfold lookupCallSite
      rw [hm, Option.some_bind, List.getElem?_eq_getElem hs.2.1]
      rfl
    have hprop := lookupCallSite_mem_of_some cs pc base _ hres
    refine ⟨_, hres, hprop.1, hprop.2, ?_⟩
    intro c2 hmem2 hoff2
    rcases List.mem_iff_getElem.mp hmem2 with ⟨j2, hj2, hjc2⟩
    rcases List.mem_iff_getElem.mp hprop.1 with ⟨j3, hj3, hjc3⟩
    rcases Nat.lt_trichotomy j2 j3 with hlt | heqj | hgt
    · have := callSitesWF_sep cs hwf j2 j3 hlt hj2 hj3
      rw [hjc2, hjc3, hoff2, hprop.2] at this
      omega
    · subst heqj; rw [← hjc2, ← hjc3]
    · have := callSitesWF_sep cs hwf j3 j2 hgt hj3 hj2
      rw [hjc2, hjc3, hoff2, hprop.2] at this
      omega
  · intro hnone
    rcases hlk : lookupCallSite cs pc base with _ | c
    · rfl
    · have hprop := lookupCallSite_mem_of_some cs pc base c hlk
      exact absurd hprop.2 (hnone c hprop.1)

/-- Witness for C6 at a concrete table: offsets 3, 7, 20; the return
address with offset 7 is found, the absent offset 8 gives none. -/
theorem lookupCallSite_spec_witness :
    CallSitesWF [⟨0, 3, 0⟩, ⟨1, 7, 0⟩, ⟨0, 20, 0⟩] ∧
    (∃ c, lookupCallSite [⟨0, 3, 0⟩, ⟨1, 7, 0⟩, ⟨0, 20, 0⟩] 1007 1000 = some c ∧
      c ∈ [(⟨0, 3, 0⟩ : CallSite), ⟨1, 7, 0⟩, ⟨0, 20, 0⟩] ∧
      c.returnAddressOffset_ = 1007 - 1000 ∧
      ∀ c2 ∈ [(⟨0, 3, 0⟩ : CallSite), ⟨1, 7, 0⟩, ⟨0, 20, 0⟩],
        c2.returnAddressOffset_ = 1007 - 1000 → c2 = c) ∧
    lookupCallSite [⟨0, 3, 0⟩, ⟨1, 7, 0⟩, ⟨0, 20, 0⟩] 1008 1000 = none := by
  refine ⟨by decide, ?_, ?_⟩
  · exact (lookupCallSite_spec _ 1007 1000 (by decide)).1
      ⟨⟨1, 7, 0⟩, by decide, by decide⟩
  · exact (lookupCallSite_spec _ 1008 1000 (by decide)).2 (by decide)

/-- Modelled from the spec: AlignBytes (jit header, not under src/)
rounds a byte count up to the next multiple of the alignment; the
alignments used by AsmJSModule::finish (sizeof(double) and the page
size) are powers of two, for which this rounding is the bit-mask form
used by the header. -/
def AlignBytes (bytes alignment : Nat) : Nat :=
  ((bytes + alignment - 1) / alignment) * alignment

/-- Code-generation targets appearing in the #ifdef arms of
AsmJSModule.cpp (JS_CODEGEN_X86 / X64 / ARM / MIPS). -/
inductive Arch where
  | x86
  | x64
  | arm
  | mips
deriving DecidableEq, Repr

/-- Pointer size in bytes on each code-generation target. -/
def pointerSize : Arch → Nat
  | Arch.x86 => 4
  | Arch.x64 => 8
  | Arch.arm => 4
  | Arch.mips => 4

/-- Size of a C double in bytes; AsmJSModule::finish aligns the code
bytes with AlignBytes(masm.bytesNeeded(), sizeof(double)). -/
def sizeofDouble : Nat := 8

/-- AsmJSModule::finish: pod.codeBytes_ = AlignBytes(masm.bytesNeeded(),
sizeof(double)). -/
def finishCodeBytes (bytesNeeded : Nat) : Nat :=
  AlignBytes bytesNeeded sizeofDouble

/-- AsmJSModule::finish: pod.totalBytes_ = AlignBytes(pod.codeBytes_ +
globalDataBytes(), AsmJSPageSize). -/
def finishTotalBytes (codeBytes globalDataBytes pageSize : Nat) : Nat :=
  AlignBytes (codeBytes + globalDataBytes) pageSize

theorem alignBytes_bounds (n a : Nat) (ha : 0 < a) :
    n ≤ AlignBytes n a ∧ AlignBytes n a < n + a ∧ AlignBytes n a % a = 0 := by
  unfold AlignBytes
  refine ⟨?_, ?_, Nat.mul_mod_left _ _⟩ <;>
  · have h1 := Nat.mod_add_div' (n + a - 1) a
    have h2 := Nat.mod_lt (n + a - 1) ha
    omega

/-- C8 counterexample: the claim says codeBytes is the code-generator
byte count rounded up to a multiple of the pointer size, but finish
aligns to sizeof(double) = 8 unconditionally; on the 32-bit x86 target
(pointer size 4) a byte count of 4 gives codeBytes 8, while rounding to
the pointer size would give 4. -/
theorem finish_sizes_counterexample :
    pointerSize Arch.x86 = 4 ∧
    AlignBytes 4 (pointerSize Arch.x86) = 4 ∧
    finishCodeBytes 4 = 8 ∧
    finishCodeBytes 4 ≠ AlignBytes 4 (pointerSize Arch.x86) := by
  decide

/-- C8 (amended): after a successful finish, codeBytes is the
code-generator byte count rounded up to a multiple of sizeof(double)
(8 bytes; this equals the pointer size only on 64-bit targets),
totalBytes is codeBytes plus the global-data size rounded up to a
multiple of the page size, and codeBytes <= totalBytes with
totalBytes % pageSize == 0. -/
theorem finish_sizes_spec (bytesNeeded globalDataBytes pageSize : Nat)
    (hpage : 0 < pageSize) :
    (bytesNeeded ≤ finishCodeBytes bytesNeeded ∧
      finishCodeBytes bytesNeeded % sizeofDouble = 0 ∧
      finishCodeBytes bytesNeeded < bytesNeeded + sizeofDouble) ∧
    (finishCodeBytes bytesNeeded + globalDataBytes ≤
        finishTotalBytes (finishCodeBytes bytesNeeded) globalDataBytes pageSize ∧
      finishTotalBytes (finishCodeBytes bytesNeeded) globalDataBytes pageSize <
        finishCodeBytes bytesNeeded + globalDataBytes + pageSize ∧
      finishTotalBytes (finishCodeBytes bytesNeeded) globalDataBytes pageSize
        % pageSize = 0) ∧
    finishCodeBytes bytesNeeded ≤
      finishTotalBytes (finishCodeBytes bytesNeeded) globalDataBytes pageSize := by
  have hc := alignBytes_bounds bytesNeeded sizeofDouble (by decide)
  have ht := alignBytes_bounds (finishCodeBytes bytesNeeded + globalDataBytes)
    pageSize hpage
  unfold finishTotalBytes
  unfold finishCodeBytes at hc ht ⊢
  exact ⟨⟨hc.1, hc.2.2, hc.2.1⟩, ⟨ht.1, ht.2.1, ht.2.2⟩, by omega⟩

/-- Witness for C8 (amended) at concrete sizes: 100 code-generator
bytes, 40 global-data bytes, page size 4096. -/
theorem finish_sizes_spec_witness :
    (100 ≤ finishCodeBytes 100 ∧
      finishCodeBytes 100 % sizeofDouble = 0 ∧
      finishCodeBytes 100 < 100 + sizeofDouble) ∧
    (finishCodeBytes 100 + 40 ≤ finishTotalBytes (finishCodeBytes 100) 40 4096 ∧
      finishTotalBytes (finishCodeBytes 100) 40 4096 <
        finishCodeBytes 100 + 40 + 4096 ∧
      finishTotalBytes (finishCodeBytes 100) 40 4096 % 4096 = 0) ∧
    finishCodeBytes 100 ≤ finishTotalBytes (finishCodeBytes 100) 40 4096 :=
  finish_sizes_spec 100 40 4096 (by decide)

/-- Modelled from the spec: an AsmJSHeapAccess record (jit/shared header,
not under src/): the offset of a load/store instruction touching linear
memory plus whether it embeds a length-check immediate. -/
structure AsmJSHeapAccess where
  offset_ : Nat
  hasLengthCheck_ : Bool
deriving DecidableEq, Repr

/-- Modelled from the spec: a FuncPtrTable record (AsmJSModule.h, not
under src/): the global-data offset of the pointer array and its element
count, as used by setProfilingEnabled. -/
structure FuncPtrTable where
  globalDataOffset_ : Nat
  numElems_ : Nat
deriving DecidableEq, Repr

/-- A patched machine word: either a pointer into the module image
(code base plus offset) or the resolved address of an external symbolic
immediate (AddressOf of an AsmJSImmKind). -/
inductive Addr where
  | codePtr (off : Nat)
  | extPtr (imm : Nat)
deriving DecidableEq, Repr

/-- The mutable contents of the patchable instruction slots of the image,
one component per class of patch site written by initHeap,
restoreToInitialState and setProfilingEnabled on the JS_CODEGEN_X86 /
X64 paths of AsmJSModule.cpp.  Each list is parallel to the owning
metadata table, indexing the slot the corresponding loop iteration
reads and writes. -/
structure MutState where
  callSiteImms : List Int
  funcPtrVals : List (List Nat)
  epilogueBytes : List (Nat × Nat)
  builtinVals : List (List Addr)
  heapPtrVals : List Nat
  heapLenVals : List Nat
deriving DecidableEq, Repr

/-- One ArrayBufferObject: its data pointer (as an address) and byte
length. -/
structure ArrayBuffer where
  dataPtr : Nat
  byteLength : Nat
deriving DecidableEq, Repr

/-- Errors surfaced by dynamic linking. -/
inductive LinkError where
  | InvalidHeapLength
deriving DecidableEq, Repr

/-- The module state acted on by the post-finish operations: the
per-module metadata tables (frozen at finish), the declared heap-length
policy, the heap binding, the profiling flag, and the mutable patch
state of the image. -/
structure LinkedModule where
  minHeapLength_ : Nat
  maxHeapLength_ : Nat
  heapLengthGranularity_ : Nat
  heapAccesses_ : List AsmJSHeapAccess
  callSites_ : List CallSite
  codeRanges_ : List CodeRange
  funcPtrTables_ : List FuncPtrTable
  builtinThunkOffsets_ : List Nat
  builtinLinkOffsets_ : List (List Nat)
  maybeHeap_ : Option ArrayBuffer
  profilingEnabled_ : Bool
  st : MutState
deriving DecidableEq, Repr

/-- Modelled from the spec: the heap-length admission test
(IsValidAsmJSHeapLength and the minimum-length check made at dynamic
link, both outside src/): the buffer length must lie within the declared
minimum/maximum linear-memory size and satisfy the alignment
granularity. -/
def validHeapLength (len minLen maxLen gran : Nat) : Bool :=
  decide (minLen ≤ len) && decide (len ≤ maxLen) && decide (len % gran = 0)

/-- The JS_CODEGEN_X86 patch loop of AsmJSModule::initHeap: for every
heap access, the embedded length-check immediate (when present) is set
to the buffer length, and the pointer operand, currently holding a
displacement, is rebased to heap base + displacement. -/
def initHeapPatchX86 (accesses : List AsmJSHeapAccess)
    (heapBase heapLength : Nat) (st : MutState) : MutState :=
  { st with
    heapLenVals :=
      List.zipWith (fun a v => if a.hasLengthCheck_ then heapLength else v)
        accesses st.heapLenVals,
    heapPtrVals :=
      List.zipWith (fun _a disp => heapBase + disp) accesses st.heapPtrVals }

/-- The JS_CODEGEN_X86 arm of AsmJSModule::restoreToInitialState:
subtract the previous buffer base out of every patched heap-access
pointer operand. -/
def restoreHeapPatchX86 (accesses : List AsmJSHeapAccess) (prevBase : Nat)
    (st : MutState) : MutState :=
  { st with
    heapPtrVals :=
      List.zipWith (fun _a p => p - prevBase) accesses st.heapPtrVals }

/-- AsmJSModule::initHeap guarded by the heap-length admission test the
spec requires of the dynamic-link attach: on a valid length the buffer
is recorded and every heap access patched; on an invalid length the
attach fails with InvalidHeapLength and the module is returned
untouched. -/
def initHeap (m : LinkedModule) (heap : ArrayBuffer) :
    Except LinkError Unit × LinkedModule :=
  if validHeapLength heap.byteLength m.minHeapLength_ m.maxHeapLength_
      m.heapLengthGranularity_ then
    (Except.ok (),
     { m with
       maybeHeap_ := some heap,
       st := initHeapPatchX86 m.heapAccesses_ heap.dataPtr heap.byteLength m.st })
  else
    (Except.error LinkError.InvalidHeapLength, m)

/-- AsmJSModule::restoreToInitialState restricted to its heap effect:
reverses the base-pointer rebasing of initHeap for the previous buffer
(when one was attached) and clears the heap binding. -/
def restoreToInitialState (m : LinkedModule) : LinkedModule :=
  match m.maybeHeap_ with
  | some prev =>
    { m with
      maybeHeap_ := none,
      st := restoreHeapPatchX86 m.heapAccesses_ prev.dataPtr m.st }
  | none => { m with maybeHeap_ := none }

/-- C4: for every module and every heap buffer whose length is outside
[minHeapLength, maxHeapLength] or violates the alignment granularity,
initHeap fails the attach with InvalidHeapLength and leaves the module
(code bytes and heap binding) completely unchanged, and initHeap
succeeds exactly for valid lengths. -/
theorem initHeap_spec (m : LinkedModule) (heap : ArrayBuffer) :
    (validHeapLength heap.byteLength m.minHeapLength_ m.maxHeapLength_
        m.heapLengthGranularity_ = false →
      initHeap m heap = (Except.error LinkError.InvalidHeapLength, m)) ∧
    ((initHeap m heap).1 = Except.ok () ↔
      validHeapLength heap.byteLength m.minHeapLength_ m.maxHeapLength_
        m.heapLengthGranularity_ = true) := by
  constructor
  · intro hv
    unfold initHeap
    rw [hv]
    simp
  · rcases hv : validHeapLength heap.byteLength m.minHeapLength_
        m.maxHeapLength_ m.heapLengthGranularity_ with _ | _ <;>
      (unfold initHeap; rw [hv]; simp)

/-- Witness for C4 at a concrete module (min 64, max 256, granularity 16)
and a buffer of invalid length 100: the attach fails with
InvalidHeapLength and the module is unchanged. -/
theorem initHeap_spec_witness :
    validHeapLength 100 64 256 16 = false ∧
    initHeap
      ⟨64, 256, 16, [], [], [], [], [], [], none, false,
        ⟨[], [], [], [], [], []⟩⟩ ⟨4096, 100⟩ =
      (Except.error LinkError.InvalidHeapLength,
       ⟨64, 256, 16, [], [], [], [], [], [], none, false,
        ⟨[], [], [], [], [], []⟩⟩) :=
  ⟨by decide,
   (initHeap_spec
      ⟨64, 256, 16, [], [], [], [], [], [], none, false,
        ⟨[], [], [], [], [], []⟩⟩ ⟨4096, 100⟩).1 (by decide)⟩

/-- A RelativeLink record (AsmJSModule.h, struct usage visible in
AsmJSModule.cpp): a module-relative patch location, a module-relative
target, and the link kind deciding raw-pointer versus
instruction-immediate patching. -/
structure RelativeLink where
  kind_ : Nat
  patchAtOffset : Nat
  targetOffset : Nat
deriving DecidableEq, Repr

/-- Modelled from the spec: an Exit record (AsmJSModule.h, not under
src/): code offsets of its interpreted-call and optimized-call
trampolines and the offset of its global-data slot. -/
structure Exit where
  interpCodeOffset_ : Nat
  ionCodeOffset_ : Nat
  globalDataOffset_ : Nat
deriving DecidableEq, Repr

/-- An ExitDatum global-data slot: the active trampoline address and the
currently bound callee (a function handle, none when unbound). -/
structure ExitDatum where
  exit : Addr
  fun_ : Option Nat
deriving DecidableEq, Repr

/-- StaticLinkData as serialized and consumed by staticallyLink: the
interrupt-exit offset, the relative links, and one offset vector per
AsmJSImmKind (absolute links, indexed by the immediate kind). -/
structure StaticLinkData where
  interruptExitOffset : Nat
  relativeLinks : List RelativeLink
  absoluteLinks : List (List Nat)
deriving DecidableEq, Repr

/-- Modelled from the spec: AsmJSModule::interpExitTrampoline
(AsmJSModule.h, not under src/): the generic interpreted-call trampoline
of an exit, a pointer into the module code at the exit's
interpreted-call code offset. -/
def interpExitTrampoline (e : Exit) : Addr :=
  Addr.codePtr e.interpCodeOffset_

/-- The word-valued view of the patchable link slots of the image,
keyed by module-relative offset; writing a slot models both the raw
pointer store and Assembler::PatchInstructionImmediate /
PatchDataWithValueCheck, all of which deposit the given address at the
given location. -/
def writeAt (st : Nat → Option Addr) (k : Nat) (v : Addr) :
    Nat → Option Addr :=
  fun q => if q = k then some v else st q

/-- The relative-link loop of AsmJSModule::staticallyLink: each link
deposits the address code base + targetOffset at code base +
patchAtOffset. -/
def applyRelativeLinks (links : List RelativeLink)
    (st : Nat → Option Addr) : Nat → Option Addr :=
  links.foldl
    (fun acc l => writeAt acc l.patchAtOffset (Addr.codePtr l.targetOffset)) st

/-- The absolute-link loop of AsmJSModule::staticallyLink: for each
immediate kind in order, the resolved external address AddressOf(kind)
is deposited at every recorded offset of that kind. -/
def applyAbsoluteLinksFrom (imm : Nat) (rows : List (List Nat))
    (st : Nat → Option Addr) : Nat → Option Addr :=
  match rows with
  | [] => st
  | row :: rest =>
    applyAbsoluteLinksFrom (imm + 1) rest
      (row.foldl (fun acc off => writeAt acc off (Addr.extPtr imm)) st)

def applyAbsoluteLinks (rows : List (List Nat))
    (st : Nat → Option Addr) : Nat → Option Addr :=
  applyAbsoluteLinksFrom 0 rows st

/-- The result state of AsmJSModule::staticallyLink: the interrupt exit
pointer, the patched link slots, and the initialized exit global-data
slots. -/
structure LinkResult where
  interruptExit_ : Addr
  store : Nat → Option Addr
  exitData : List ExitDatum

/-- AsmJSModule::staticallyLink: applies every relative link, then every
absolute-link bucket, then initializes every exit's global-data slot to
the generic interpreted-call trampoline with no bound callee. -/
def staticallyLink (sld : StaticLinkData) (exits : List Exit)
    (st0 : Nat → Option Addr) : LinkResult :=
  { interruptExit_ := Addr.codePtr sld.interruptExitOffset,
    store := applyAbsoluteLinks sld.absoluteLinks
      (applyRelativeLinks sld.relativeLinks st0),
    exitData := exits.map (fun e => ⟨interpExitTrampoline e, none⟩) }

theorem foldl_writeAt_ne (row : List Nat) (v : Addr) (k : Nat) :
    ∀ st, k ∉ row →
      (row.foldl (fun acc off => writeAt acc off v) st) k = st k := by
  induction row with
  | nil => intro st _; rfl
  | cons a t ih =>
    intro st hk
    simp only [List.foldl_cons]
    rw [ih _ (fun h => hk (List.mem_cons_of_mem a h))]
    unfold writeAt
    rw [if_neg (fun h => hk (by rw [h]; exact List.mem_cons_self a t))]

theorem applyRelativeLinks_not_mem (links : List RelativeLink) (k : Nat) :
    ∀ st, k ∉ links.map RelativeLink.patchAtOffset →
      applyRelativeLinks links st k = st k := by
  induction links with
  | nil => intro st _; rfl
  | cons a t ih =>
    intro st hk
    simp only [List.map_cons, List.mem_cons, not_or] at hk
    unfold applyRelativeLinks
    simp only [List.foldl_cons]
    rw [show (t.foldl
        (fun acc l => writeAt acc l.patchAtOffset (Addr.codePtr l.targetOffset))
        (writeAt st a.patchAtOffset (Addr.codePtr a.targetOffset))) k =
      (writeAt st a.patchAtOffset (Addr.codePtr a.targetOffset)) k from
      ih _ hk.2]
    unfold writeAt
    rw [if_neg hk.1]

theorem applyRelativeLinks_mem (links : List RelativeLink)
    (hnodup : (links.map RelativeLink.patchAtOffset).Nodup) :
    ∀ st, ∀ l ∈ links,
      applyRelativeLinks links st l.patchAtOffset =
        some (Addr.codePtr l.targetOffset) := by
  induction links with
  | nil => intro st l hl; exact absurd hl (List.not_mem_nil l)
  | cons a t ih =>
    intro st l hl
    simp only [List.map_cons, List.nodup_cons] at hnodup
    rcases List.mem_cons.mp hl with heq | hmem
    · subst heq
      unfold applyRelativeLinks
      simp only [List.foldl_cons]
      rw [show (t.foldl
          (fun acc l2 => writeAt acc l2.patchAtOffset (Addr.codePtr l2.targetOffset))
          (writeAt st l.patchAtOffset (Addr.codePtr l.targetOffset)))
            l.patchAtOffset =
        (writeAt st l.patchAtOffset (Addr.codePtr l.targetOffset))
            l.patchAtOffset from
        applyRelativeLinks_not_mem t l.patchAtOffset _ hnodup.1]
      unfold writeAt
      rw [if_pos rfl]
    · unfold applyRelativeLinks
      simp only [List.foldl_cons]
      exact ih hnodup.2 _ l hmem

theorem applyAbsoluteLinksFrom_not_mem (rows : List (List Nat)) (k : Nat) :
    ∀ imm st, (∀ row ∈ rows, k ∉ row) →
      applyAbsoluteLinksFrom imm rows st k = st k := by
  induction rows with
  | nil => intro imm st _; rfl
  | cons row rest ih =>
    intro imm st hk
    unfold applyAbsoluteLinksFrom
    rw [ih _ _ (fun r hr => hk r (List.mem_cons_of_mem row hr))]
    exact foldl_writeAt_ne row (Addr.extPtr imm) k st
      (hk row (List.mem_cons_self row rest))

/-- C7: after staticallyLink on a finished, not-yet-linked module, every
RelativeLink has been applied by depositing the address base +
targetOffset at location base + patchAtOffset (whether by raw-pointer
store or instruction-immediate patching), and every exit's global-data
slot holds the generic interpreted-call trampoline for that exit with
its bound callee set to null.  The hypotheses record that the patch
sites are distinct, which the source asserts via the pre-patch sentinel
checks. -/
theorem staticallyLink_spec (sld : StaticLinkData) (exits : List Exit)
    (st0 : Nat → Option Addr)
    (hnodup : (sld.relativeLinks.map RelativeLink.patchAtOffset).Nodup)
    (hdisj : ∀ l ∈ sld.relativeLinks, ∀ row ∈ sld.absoluteLinks,
      l.patchAtOffset ∉ row) :
    (∀ l ∈ sld.relativeLinks,
      (staticallyLink sld exits st0).store l.patchAtOffset =
        some (Addr.codePtr l.targetOffset)) ∧
    (∀ i (h : i < exits.length),
      (staticallyLink sld exits st0).exitData[i]? =
        some ⟨Addr.codePtr exits[i].interpCodeOffset_, none⟩) := by
  constructor
  · intro l hl
    show applyAbsoluteLinks sld.absoluteLinks
      (applyRelativeLinks sld.relativeLinks st0) l.patchAtOffset = _
    unfold applyAbsoluteLinks
    rw [applyAbsoluteLinksFrom_not_mem sld.absoluteLinks l.patchAtOffset 0 _
      (hdisj l hl)]
    exact applyRelativeLinks_mem sld.relativeLinks hnodup st0 l hl
  · intro i h
    show (exits.map (fun e => (⟨interpExitTrampoline e, none⟩ : ExitDatum)))[i]? = _
    rw [List.getElem?_map, List.getElem?_eq_getElem h]
    rfl

/-- Witness for C7 at a concrete link table: two relative links with
distinct patch sites, one absolute-link row at a separate offset, and
one exit whose slot receives the interpreted-call trampoline with null
callee. -/
theorem staticallyLink_spec_witness :
    ((([⟨0, 16, 32⟩, ⟨1, 24, 8⟩] : List RelativeLink).map
        RelativeLink.patchAtOffset).Nodup ∧
      ∀ l ∈ ([⟨0, 16, 32⟩, ⟨1, 24, 8⟩] : List RelativeLink),
        ∀ row ∈ [[40]], l.patchAtOffset ∉ row) ∧
    (staticallyLink ⟨100, [⟨0, 16, 32⟩, ⟨1, 24, 8⟩], [[40]]⟩
        [⟨60, 70, 80⟩] (fun _ => none)).store 16 =
      some (Addr.codePtr 32) ∧
    (staticallyLink ⟨100, [⟨0, 16, 32⟩, ⟨1, 24, 8⟩], [[40]]⟩
        [⟨60, 70, 80⟩] (fun _ => none)).exitData[0]? =
      some ⟨Addr.codePtr 60, none⟩ := by
  refine ⟨⟨by decide, by decide⟩, ?_, ?_⟩
  · exact (staticallyLink_spec ⟨100, [⟨0, 16, 32⟩, ⟨1, 24, 8⟩], [[40]]⟩
      [⟨60, 70, 80⟩] (fun _ => none) (by decide) (by decide)).1
      ⟨0, 16, 32⟩ (by decide)
  · exact (staticallyLink_spec ⟨100, [⟨0, 16, 32⟩, ⟨1, 24, 8⟩], [[40]]⟩
      [⟨60, 70, 80⟩] (fun _ => none) (by decide) (by decide)).2 0 (by decide)

/-- A PropertyName as far as the codec is concerned: its character
encoding (latin1 versus two-byte) and its code units. -/
structure PName where
  latin1 : Bool
  chars : List Nat
deriving DecidableEq, Repr

/-- The MachineId of the cache codec (AsmJSModule.cpp): the CPU-feature
word from GetCPUID and the embedding-supplied build identifier bytes. -/
structure MachineId where
  cpuId_ : Nat
  buildId_ : List Nat
deriving DecidableEq, Repr

/-- MachineId::operator==: the cpu ids are equal, the build ids have
equal length, and the build id bytes are PodEqual. -/
def MachineId.beq (a b : MachineId) : Bool :=
  decide (a.cpuId_ = b.cpuId_) && decide (a.buildId_.length = b.buildId_.length) &&
    decide (a.buildId_ = b.buildId_)

/-- ModuleCharsForLookup: the recorded fingerprint of a cached module:
whether the module came from a Function-constructor body, the explicit
formal-argument names in that case, and the recorded (decompressed)
source code units. -/
structure ModuleCharsForLookup where
  isFunCtor_ : Bool
  funCtorArgs_ : List (Option PName)
  chars_ : List Nat
deriving DecidableEq, Repr

/-- The parser-side inputs consumed by ModuleCharsForLookup::match: the
current source code units from beginOffset(parser) up to rawLimit,
whether the current module is a Function-constructor body, and its
formal-argument names. -/
structure ParseContext where
  source : List Nat
  isFunCtorBody : Bool
  args : List (Option PName)
deriving DecidableEq, Repr

/-- ModuleCharsForLookup::match: the recorded chars must be a prefix of
the remaining source, the Function-constructor flag must agree, and for
Function-constructor modules the recorded chars must reach exactly to
the end of the source and the formal-argument lists must agree
element-for-element. -/
def ModuleCharsForLookup.match_ (mc : ModuleCharsForLookup)
    (p : ParseContext) : Bool :=
  if p.source.length < mc.chars_.length then false
  else if ¬ mc.chars_ = p.source.take mc.chars_.length then false
  else if ¬ mc.isFunCtor_ = p.isFunCtorBody then false
  else if mc.isFunCtor_ then
    if ¬ mc.chars_.length = p.source.length then false
    else if ¬ mc.funCtorArgs_.length = p.args.length then false
    else decide (mc.funCtorArgs_ = p.args)
  else true

/-- The two admission gates of js::LookupAsmJSModuleInCache: a stored
entry is used only when the current MachineId equals the recorded one
(machineId != cachedMachineId reports a miss) and the recorded module
chars match the current parse (moduleChars.match(parser) false reports
a miss). -/
def lookupCacheHit (current cached : MachineId)
    (mc : ModuleCharsForLookup) (p : ParseContext) : Bool :=
  MachineId.beq current cached && mc.match_ p

/-- C3: a stored cache entry is accepted only if the recorded MachineId
equals the current one bit-for-bit and the recorded source fingerprint
matches the current source; every single-byte change to the recorded
build identifier, every flipped CPU-feature bit, and every single-byte
change inside the normalized source range produce a miss, including the
strict-prefix case caught by the exact end-of-source check for
Function-constructor modules. -/
theorem cacheAdmission_spec :
    (∀ (cur cached : MachineId) (mc : ModuleCharsForLookup) (p : ParseContext),
      lookupCacheHit cur cached mc p = true →
        cur = cached ∧ mc.match_ p = true) ∧
    (∀ (id : MachineId) (mc : ModuleCharsForLookup) (p : ParseContext)
        (i b : Nat) (h : i < id.buildId_.length), b ≠ id.buildId_[i] →
      lookupCacheHit id ⟨id.cpuId_, id.buildId_.set i b⟩ mc p = false) ∧
    (∀ (id : MachineId) (mc : ModuleCharsForLookup) (p : ParseContext)
        (k : Nat),
      lookupCacheHit id ⟨id.cpuId_ ^^^ 2 ^ k, id.buildId_⟩ mc p = false) ∧
    (∀ (mc : ModuleCharsForLookup) (p : ParseContext) (i : Nat)
        (h1 : i < mc.chars_.length) (h2 : i < p.source.length),
      mc.chars_[i] ≠ p.source[i] →
        mc.match_ p = false ∧
        ∀ cur cached, lookupCacheHit cur cached mc p = false) ∧
    (∀ (mc : ModuleCharsForLookup) (p : ParseContext),
      mc.isFunCtor_ = true → p.isFunCtorBody = true →
      mc.chars_ = p.source.take mc.chars_.length →
      mc.chars_.length < p.source.length →
        mc.match_ p = false ∧
        ∀ cur cached, lookupCacheHit cur cached mc p = false) := by
  refine ⟨?_, ?_, ?_, ?_, ?_⟩
  · intro cur cached mc p hacc
    unfold lookupCacheHit MachineId.beq at hacc
    rcases Bool.and_eq_true_iff.mp hacc with ⟨hid, hmatch⟩
    rcases Bool.and_eq_true_iff.mp hid with ⟨hid2, hbuild⟩
    rcases Bool.and_eq_true_iff.mp hid2 with ⟨hcpu, _⟩
    refine ⟨?_, hmatch⟩
    cases cur
    cases cached
    simp only [MachineId.mk.injEq]
    exact ⟨of_decide_eq_true hcpu, of_decide_eq_true hbuild⟩
  · intro id mc p i b h hne
    unfold lookupCacheHit MachineId.beq
    have hbuild : ¬ id.buildId_ = id.buildId_.set i b := by
      intro hcontra
      have hq : id.buildId_[i]? = (id.buildId_.set i b)[i]? := by
        rw [← hcontra]
      rw [List.getElem?_eq_getElem h, List.getElem?_set_self h] at hq
      have hq2 : id.buildId_[i] = b := by injection hq
      exact hne hq2.symm
    simp only [decide_eq_false hbuild, Bool.and_false, Bool.false_and]
  · intro id mc p k
    unfold lookupCacheHit MachineId.beq
    have hcpu : ¬ id.cpuId_ = id.cpuId_ ^^^ 2 ^ k := by
      intro hcontra
      have h0 : id.cpuId_ ^^^ id.cpuId_ = 0 := Nat.xor_self _
      have h1 : id.cpuId_ ^^^ (id.cpuId_ ^^^ 2 ^ k) = 2 ^ k := by
        rw [← Nat.xor_assoc, Nat.xor_self, Nat.zero_xor]
      rw [← hcontra, h0] at h1
      exact absurd h1.symm (Nat.pos_iff_ne_zero.mp (Nat.pos_pow_of_pos k (by omega)))
    simp only [decide_eq_false hcpu, Bool.false_and]
  · intro mc p i h1 h2 hne
    have hmatch : mc.match_ p = false := by
      unfold ModuleCharsForLookup.match_
      by_cases hlen : p.source.length < mc.chars_.length
      · rw [if_pos hlen]
      · rw [if_neg hlen]
        have htake : ¬ mc.chars_ = p.source.take mc.chars_.length := by
          intro hcontra
          have hi : i < (p.source.take mc.chars_.length).length := by
            rw [List.length_take]
            omega
          have := congrArg (fun l => l[i]?) hcontra
          simp only [List.getElem?_eq_getElem h1, List.getElem?_eq_getElem hi] at this
          rw [List.getElem_take] at this
          exact hne (by injection this)
        rw [if_pos htake]
    exact ⟨hmatch, fun cur cached => by
      unfold lookupCacheHit
      rw [hmatch, Bool.and_false]⟩
  · intro mc p hfc hpfc htake hlt
    have hmatch : mc.match_ p = false := by
      unfold ModuleCharsForLookup.match_
      rw [if_neg (by omega : ¬ p.source.length < mc.chars_.length),
        if_neg (by rw [not_not]; exact htake),
        if_neg (by rw [not_not, hfc, hpfc]),
        if_pos hfc,
        if_pos (by omega : ¬ mc.chars_.length = p.source.length)]
    exact ⟨hmatch, fun cur cached => by
      unfold lookupCacheHit
      rw [hmatch, Bool.and_false]⟩

/-- Witness for C3: a concrete current machine (cpu word 5, build id
[1, 2]) against the same entry with build id byte 1 changed to 9 is a
miss, and the strict-prefix Function-constructor source [7, 7] against
current source [7, 7, 8] is a miss for any machine pair. -/
theorem cacheAdmission_spec_witness :
    lookupCacheHit ⟨5, [1, 2]⟩ ⟨5, ([1, 2] : List Nat).set 1 9⟩
      ⟨false, [], []⟩ ⟨[], false, []⟩ = false ∧
    lookupCacheHit ⟨5, [1, 2]⟩ ⟨5, [1, 2]⟩
      ⟨true, [], [7, 7]⟩ ⟨[7, 7, 8], true, []⟩ = false :=
  ⟨cacheAdmission_spec.2.1 ⟨5, [1, 2]⟩ ⟨false, [], []⟩ ⟨[], false, []⟩ 1 9
      (by decide) (by decide),
   (cacheAdmission_spec.2.2.2.2 ⟨true, [], [7, 7]⟩ ⟨[7, 7, 8], true, []⟩
      (by decide) (by decide) (by decide) (by decide)).2 ⟨5, [1, 2]⟩ ⟨5, [1, 2]⟩⟩

/-!
The persistent-cache codec.  Byte streams are lists of byte values; the
writers mirror WriteScalar / WriteBytes / SerializeName /
SerializeVector / SerializePodVector of AsmJSModule.cpp, and the readers
mirror the corresponding ReadScalar / ReadBytes / DeserializeName /
DeserializeVector / DeserializePodVector, made fallible with Option to
model short reads.  Struct memcpy of a POD record is modelled as the
field-by-field little-endian write of its members.
-/

/-- WriteScalar of a uint32, little-endian, as memcpy produces on the
supported targets. -/
def WriteScalar32 (n : Nat) : List Nat :=
  [n % 256, n / 256 % 256, n / 65536 % 256, n / 16777216 % 256]

/-- ReadScalar of a uint32, little-endian. -/
def ReadScalar32 : List Nat → Option (Nat × List Nat)
  | b0 :: b1 :: b2 :: b3 :: rest =>
    some (b0 + 256 * b1 + 65536 * b2 + 16777216 * b3, rest)
  | _ => none

/-- WriteBytes of a bool struct member (one byte). -/
def WriteBool (b : Bool) : List Nat :=
  [if b then 1 else 0]

/-- ReadBytes of a bool struct member. -/
def ReadBool : List Nat → Option (Bool × List Nat)
  | b :: rest => some (decide (b = 1), rest)
  | _ => none

/-- ReadBytes of a known byte count. -/
def ReadBytesN (n : Nat) (bs : List Nat) : Option (List Nat × List Nat) :=
  if n ≤ bs.length then some (bs.take n, bs.drop n) else none

theorem readScalar32_write (n : Nat) (hn : n < 4294967296) (r : List Nat) :
    ReadScalar32 (WriteScalar32 n ++ r) = some (n, r) := by
  unfold WriteScalar32 ReadScalar32
  simp only [List.cons_append, List.nil_append]
  congr 1
  congr 1
  omega

theorem readBool_write (b : Bool) (r : List Nat) :
    ReadBool (WriteBool b ++ r) = some (b, r) := by
  cases b <;> rfl

theorem readBytesN_exact (l : List Nat) (n : Nat) (hl : l.length = n)
    (r : List Nat) : ReadBytesN n (l ++ r) = some (l, r) := by
  unfold ReadBytesN
  rw [if_pos (by rw [List.length_append]; omega)]
  rw [List.take_append_of_le_length (by omega), List.drop_append_of_le_length (by omega)]
  rw [← hl, List.take_length, List.drop_length, List.nil_append]

/-- Encoding of a list of records back to back, as the serialization
loops produce. -/
def encList {α : Type} (enc : α → List Nat) : List α → List Nat
  | [] => []
  | x :: t => enc x ++ encList enc t

/-- Reading a known count of records. -/
def ReadListN {α : Type} (dec : List Nat → Option (α × List Nat)) :
    Nat → List Nat → Option (List α × List Nat)
  | 0, bs => some ([], bs)
  | n + 1, bs =>
    (dec bs).bind fun p =>
      (ReadListN dec n p.2).bind fun q =>
        some (p.1 :: q.1, q.2)

/-- SerializeVector / SerializePodVector: a uint32 length prefix
followed by the records. -/
def SerializeVector {α : Type} (enc : α → List Nat) (xs : List α) : List Nat :=
  WriteScalar32 xs.length ++ encList enc xs

/-- DeserializeVector / DeserializePodVector: read the length prefix,
then that many records. -/
def DeserializeVector {α : Type} (dec : List Nat → Option (α × List Nat))
    (bs : List Nat) : Option (List α × List Nat) :=
  (ReadScalar32 bs).bind fun p => ReadListN dec p.1 p.2

theorem readListN_encList {α : Type} (dec : List Nat → Option (α × List Nat))
    (enc : α → List Nat) (xs : List α)
    (hdec : ∀ x ∈ xs, ∀ r, dec (enc x ++ r) = some (x, r)) :
    ∀ r, ReadListN dec xs.length (encList enc xs ++ r) = some (xs, r) := by
  induction xs with
  | nil => intro r; rfl
  | cons x t ih =>
    intro r
    show ReadListN dec (t.length + 1) ((enc x ++ encList enc t) ++ r) = _
    rw [List.append_assoc]
    unfold ReadListN
    rw [hdec x (List.mem_cons_self x t) (encList enc t ++ r), Option.some_bind,
      ih (fun y hy => hdec y (List.mem_cons_of_mem x hy)) r, Option.some_bind]

theorem deserializeVector_serialize {α : Type}
    (dec : List Nat → Option (α × List Nat)) (enc : α → List Nat)
    (xs : List α) (hlen : xs.length < 4294967296)
    (hdec : ∀ x ∈ xs, ∀ r, dec (enc x ++ r) = some (x, r)) :
    ∀ r, DeserializeVector dec (SerializeVector enc xs ++ r) = some (xs, r) := by
  intro r
  unfold SerializeVector DeserializeVector
  rw [List.append_assoc, readScalar32_write xs.length hlen, Option.some_bind]
  exact readListN_encList dec enc xs hdec r

/-- Two-byte (jschar) character payload, little-endian per code unit. -/
def encChars2 : List Nat → List Nat
  | [] => []
  | c :: t => c % 256 :: c / 256 :: encChars2 t

/-- Reading a known count of two-byte code units. -/
def readChars2 : Nat → List Nat → Option (List Nat × List Nat)
  | 0, bs => some ([], bs)
  | n + 1, lo :: hi :: rest =>
    (readChars2 n rest).bind fun q => some ((lo + 256 * hi) :: q.1, q.2)
  | _ + 1, _ => none

theorem readChars2_enc (cs : List Nat) (hcs : ∀ c ∈ cs, c < 65536) :
    ∀ r, readChars2 cs.length (encChars2 cs ++ r) = some (cs, r) := by
  induction cs with
  | nil => intro r; rfl
  | cons c t ih =>
    intro r
    show readChars2 (t.length + 1) (c % 256 :: c / 256 :: (encChars2 t ++ r)) = _
    unfold readChars2
    rw [ih (fun y hy => hcs y (List.mem_cons_of_mem c hy)) r, Option.some_bind]
    have hc : c < 65536 := hcs c (List.mem_cons_self c t)
    have hrt : c % 256 + 256 * (c / 256) = c := by omega
    rw [hrt]

/-- SerializeName: a null name writes a zero word; otherwise the word
(length << 1) | isLatin1 followed by the character payload, one byte per
latin1 code unit or two bytes per jschar code unit. -/
def SerializeName : Option PName → List Nat
  | none => WriteScalar32 0
  | some n =>
    WriteScalar32 (2 * n.chars.length + (if n.latin1 then 1 else 0)) ++
      (if n.latin1 then n.chars else encChars2 n.chars)

/-- DeserializeName: reads the length-and-encoding word; a zero length
yields the null name, otherwise the character payload is read back in
the recorded encoding. -/
def DeserializeName (bs : List Nat) : Option (Option PName × List Nat) :=
  (ReadScalar32 bs).bind fun p =>
    if p.1 / 2 = 0 then some (none, p.2)
    else if p.1 % 2 = 1 then
      (ReadBytesN (p.1 / 2) p.2).bind fun q => some (some ⟨true, q.1⟩, q.2)
    else
      (readChars2 (p.1 / 2) p.2).bind fun q => some (some ⟨false, q.1⟩, q.2)

/-- Wellformedness of a serialized name: null, or non-empty (asserted by
SerializeName) with the length fitting beside the encoding bit in a
uint32 (JSString::MAX_LENGTH <= INT32_MAX) and each code unit within
its encoding's range. -/
def NameOk : Option PName → Prop
  | none => True
  | some n =>
    n.chars ≠ [] ∧ n.chars.length < 2147483648 ∧
      (n.latin1 = true → ∀ c ∈ n.chars, c < 256) ∧
      (n.latin1 = false → ∀ c ∈ n.chars, c < 65536)

instance (onm : Option PName) : Decidable (NameOk onm) := by
  rcases onm with _ | n
  · exact Decidable.isTrue trivial
  · unfold NameOk
    infer_instance

theorem deserializeName_serialize (onm : Option PName) (hok : NameOk onm) :
    ∀ r, DeserializeName (SerializeName onm ++ r) = some (onm, r) := by
  intro r
  rcases onm with _ | n
  · simp only [SerializeName, DeserializeName]
    rw [readScalar32_write 0 (by omega), Option.some_bind]
    rw [if_pos (by omega : (0 : Nat) / 2 = 0)]
  · rcases hok with ⟨hne, hlen, hlat, htwo⟩
    have hlen0 : 0 < n.chars.length := List.length_pos.mpr hne
    simp only [SerializeName, DeserializeName]
    by_cases hl : n.latin1 = true
    · rw [hl, if_pos rfl, if_pos rfl]
      rw [List.append_assoc,
        readScalar32_write (2 * n.chars.length + 1) (by omega), Option.some_bind]
      rw [if_neg (by omega : ¬ (2 * n.chars.length + 1) / 2 = 0),
        if_pos (by omega : (2 * n.chars.length + 1) % 2 = 1),
        show (2 * n.chars.length + 1) / 2 = n.chars.length by omega,
        readBytesN_exact n.chars n.chars.length rfl r, Option.some_bind]
      rw [← hl]
    · have hl2 : n.latin1 = false := by
        revert hl; cases n.latin1 <;> simp
      rw [hl2, if_neg (by simp), if_neg (by simp)]
      rw [List.append_assoc,
        readScalar32_write (2 * n.chars.length + 0) (by omega), Option.some_bind]
      rw [if_neg (by omega : ¬ (2 * n.chars.length + 0) / 2 = 0),
        if_neg (by omega : ¬ (2 * n.chars.length + 0) % 2 = 1),
        show (2 * n.chars.length + 0) / 2 = n.chars.length by omega,
        readChars2_enc n.chars (htwo hl2) r, Option.some_bind]
      rw [← hl2]

/-- A uint32 struct member value. -/
def u32Ok (n : Nat) : Prop := n < 4294967296

instance (n : Nat) : Decidable (u32Ok n) := by
  unfold u32Ok; infer_instance

/-- A length-prefixed vector: length representable as uint32 and every
record wellformed. -/
def VecOk {α : Type} (ok : α → Prop) (xs : List α) : Prop :=
  xs.length < 4294967296 ∧ ∀ x ∈ xs, ok x

instance {α : Type} (ok : α → Prop) [DecidablePred ok] (xs : List α) :
    Decidable (VecOk ok xs) := by
  unfold VecOk; infer_instance

/-- Modelled from the spec: the POD header of AsmJSModule (the pod
member of AsmJSModule.h, not under src/), holding the size fields and
flags that AsmJSModule.cpp reads through pod.*. -/
structure AsmJSModulePod where
  funcPtrTableAndExitBytes_ : Nat
  functionBytes_ : Nat
  codeBytes_ : Nat
  totalBytes_ : Nat
  minHeapLength_ : Nat
  srcLength_ : Nat
  srcLengthWithRightBrace_ : Nat
  strict_ : Bool
  usesSignalHandlers_ : Bool
deriving DecidableEq, Repr

def AsmJSModulePodOk (p : AsmJSModulePod) : Prop :=
  u32Ok p.funcPtrTableAndExitBytes_ ∧ u32Ok p.functionBytes_ ∧
  u32Ok p.codeBytes_ ∧ u32Ok p.totalBytes_ ∧ u32Ok p.minHeapLength_ ∧
  u32Ok p.srcLength_ ∧ u32Ok p.srcLengthWithRightBrace_

instance (p : AsmJSModulePod) : Decidable (AsmJSModulePodOk p) := by
  unfold AsmJSModulePodOk; infer_instance

/-- WriteBytes(&pod, sizeof(pod)) for the module header, modelled as the
field-by-field little-endian image of the struct. -/
def encAsmJSModulePod (p : AsmJSModulePod) : List Nat :=
  WriteScalar32 p.funcPtrTableAndExitBytes_ ++
  (WriteScalar32 p.functionBytes_ ++
  (WriteScalar32 p.codeBytes_ ++
  (WriteScalar32 p.totalBytes_ ++
  (WriteScalar32 p.minHeapLength_ ++
  (WriteScalar32 p.srcLength_ ++
  (WriteScalar32 p.srcLengthWithRightBrace_ ++
  (WriteBool p.strict_ ++
  WriteBool p.usesSignalHandlers_)))))))

def decAsmJSModulePod (bs : List Nat) : Option (AsmJSModulePod × List Nat) :=
  (ReadScalar32 bs).bind fun a =>
  (ReadScalar32 a.2).bind fun b =>
  (ReadScalar32 b.2).bind fun c =>
  (ReadScalar32 c.2).bind fun d =>
  (ReadScalar32 d.2).bind fun e =>
  (ReadScalar32 e.2).bind fun f =>
  (ReadScalar32 f.2).bind fun g =>
  (ReadBool g.2).bind fun h =>
  (ReadBool h.2).bind fun i =>
  some (⟨a.1, b.1, c.1, d.1, e.1, f.1, g.1, h.1, i.1⟩, i.2)

theorem decAsmJSModulePod_enc (p : AsmJSModulePod) (hok : AsmJSModulePodOk p) :
    ∀ r, decAsmJSModulePod (encAsmJSModulePod p ++ r) = some (p, r) := by
  intro r
  obtain ⟨h1, h2, h3, h4, h5, h6, h7⟩ := hok
  simp only [encAsmJSModulePod, decAsmJSModulePod, List.append_assoc]
  rw [readScalar32_write _ h1, Option.some_bind,
    readScalar32_write _ h2, Option.some_bind,
    readScalar32_write _ h3, Option.some_bind,
    readScalar32_write _ h4, Option.some_bind,
    readScalar32_write _ h5, Option.some_bind,
    readScalar32_write _ h6, Option.some_bind,
    readScalar32_write _ h7, Option.some_bind,
    readBool_write _ _, Option.some_bind,
    readBool_write _ _, Option.some_bind]

/-- Modelled from the spec: the POD part of a Global record (a
module-level variable or imported-binding descriptor): its kind tag and
payload word. -/
structure GlobalPod where
  which_ : Nat
  payload_ : Nat
deriving DecidableEq, Repr

/-- AsmJSModule::Global: pod followed by the name. -/
structure Global where
  pod : GlobalPod
  name_ : Option PName
deriving DecidableEq, Repr

def GlobalOk (g : Global) : Prop :=
  u32Ok g.pod.which_ ∧ u32Ok g.pod.payload_ ∧ NameOk g.name_

instance (g : Global) : Decidable (GlobalOk g) := by
  unfold GlobalOk; infer_instance

/-- AsmJSModule::Global::serialize: WriteBytes of the pod then
SerializeName of the name. -/
def encGlobal (g : Global) : List Nat :=
  WriteScalar32 g.pod.which_ ++
  (WriteScalar32 g.pod.payload_ ++ SerializeName g.name_)

def decGlobal (bs : List Nat) : Option (Global × List Nat) :=
  (ReadScalar32 bs).bind fun a =>
  (ReadScalar32 a.2).bind fun b =>
  (DeserializeName b.2).bind fun c =>
  some (⟨⟨a.1, b.1⟩, c.1⟩, c.2)

theorem decGlobal_enc (g : Global) (hok : GlobalOk g) :
    ∀ r, decGlobal (encGlobal g ++ r) = some (g, r) := by
  intro r
  obtain ⟨h1, h2, h3⟩ := hok
  simp only [encGlobal, decGlobal, List.append_assoc]
  rw [readScalar32_write _ h1, Option.some_bind,
    readScalar32_write _ h2, Option.some_bind,
    deserializeName_serialize _ h3, Option.some_bind]

def ExitOk (e : Exit) : Prop :=
  u32Ok e.interpCodeOffset_ ∧ u32Ok e.ionCodeOffset_ ∧ u32Ok e.globalDataOffset_

instance (e : Exit) : Decidable (ExitOk e) := by
  unfold ExitOk; infer_instance

/-- AsmJSModule::Exit::serialize: WriteBytes of the whole POD record. -/
def encExit (e : Exit) : List Nat :=
  WriteScalar32 e.interpCodeOffset_ ++
  (WriteScalar32 e.ionCodeOffset_ ++ WriteScalar32 e.globalDataOffset_)

def decExit (bs : List Nat) : Option (Exit × List Nat) :=
  (ReadScalar32 bs).bind fun a =>
  (ReadScalar32 a.2).bind fun b =>
  (ReadScalar32 b.2).bind fun c =>
  some (⟨a.1, b.1, c.1⟩, c.2)

theorem decExit_enc (e : Exit) (hok : ExitOk e) :
    ∀ r, decExit (encExit e ++ r) = some (e, r) := by
  intro r
  obtain ⟨h1, h2, h3⟩ := hok
  simp only [encExit, decExit, List.append_assoc]
  rw [readScalar32_write _ h1, Option.some_bind,
    readScalar32_write _ h2, Option.some_bind,
    readScalar32_write _ h3, Option.some_bind]

/-- Modelled from the spec: the POD part of an ExportedFunction: its
code offset. -/
structure ExportedFunctionPod where
  codeOffset_ : Nat
deriving DecidableEq, Repr

/-- AsmJSModule::ExportedFunction: name, optional field name, ordered
argument coercions, code offset. -/
structure ExportedFunction where
  name_ : Option PName
  maybeFieldName_ : Option PName
  argCoercions_ : List Nat
  pod : ExportedFunctionPod
deriving DecidableEq, Repr

def ExportedFunctionOk (f : ExportedFunction) : Prop :=
  NameOk f.name_ ∧ NameOk f.maybeFieldName_ ∧ VecOk u32Ok f.argCoercions_ ∧
    u32Ok f.pod.codeOffset_

instance (f : ExportedFunction) : Decidable (ExportedFunctionOk f) := by
  unfold ExportedFunctionOk; infer_instance

/-- AsmJSModule::ExportedFunction::serialize: both names, the
arg-coercion pod vector, then the pod. -/
def encExportedFunction (f : ExportedFunction) : List Nat :=
  SerializeName f.name_ ++
  (SerializeName f.maybeFieldName_ ++
  (SerializeVector WriteScalar32 f.argCoercions_ ++
  WriteScalar32 f.pod.codeOffset_))

def decExportedFunction (bs : List Nat) : Option (ExportedFunction × List Nat) :=
  (DeserializeName bs).bind fun a =>
  (DeserializeName a.2).bind fun b =>
  (DeserializeVector ReadScalar32 b.2).bind fun c =>
  (ReadScalar32 c.2).bind fun d =>
  some (⟨a.1, b.1, c.1, ⟨d.1⟩⟩, d.2)

theorem decExportedFunction_enc (f : ExportedFunction)
    (hok : ExportedFunctionOk f) :
    ∀ r, decExportedFunction (encExportedFunction f ++ r) = some (f, r) := by
  intro r
  obtain ⟨h1, h2, ⟨h3a, h3b⟩, h4⟩ := hok
  simp only [encExportedFunction, decExportedFunction, List.append_assoc]
  rw [deserializeName_serialize _ h1, Option.some_bind,
    deserializeName_serialize _ h2, Option.some_bind,
    deserializeVector_serialize ReadScalar32 WriteScalar32 f.argCoercions_ h3a
      (fun x hx r2 => readScalar32_write x (h3b x hx) r2), Option.some_bind,
    readScalar32_write _ h4, Option.some_bind]

def CallSiteOk (c : CallSite) : Prop :=
  u32Ok c.kind_ ∧ u32Ok c.returnAddressOffset_ ∧ u32Ok c.stackDepth_

instance (c : CallSite) : Decidable (CallSiteOk c) := by
  unfold CallSiteOk; infer_instance

/-- SerializePodVector element image of a CallSite record. -/
def encCallSite (c : CallSite) : List Nat :=
  WriteScalar32 c.kind_ ++
  (WriteScalar32 c.returnAddressOffset_ ++ WriteScalar32 c.stackDepth_)

def decCallSite (bs : List Nat) : Option (CallSite × List Nat) :=
  (ReadScalar32 bs).bind fun a =>
  (ReadScalar32 a.2).bind fun b =>
  (ReadScalar32 b.2).bind fun c =>
  some (⟨a.1, b.1, c.1⟩, c.2)

theorem decCallSite_enc (c : CallSite) (hok : CallSiteOk c) :
    ∀ r, decCallSite (encCallSite c ++ r) = some (c, r) := by
  intro r
  obtain ⟨h1, h2, h3⟩ := hok
  simp only [encCallSite, decCallSite, List.append_assoc]
  rw [readScalar32_write _ h1, Option.some_bind,
    readScalar32_write _ h2, Option.some_bind,
    readScalar32_write _ h3, Option.some_bind]

/-- Numeric tag of a CodeRange kind in the serialized image. -/
def CodeRangeKind.tag : CodeRangeKind → Nat
  | CodeRangeKind.Function => 0
  | CodeRangeKind.Entry => 1
  | CodeRangeKind.Inline => 2
  | CodeRangeKind.Thunk => 3

def codeRangeKindOfTag : Nat → CodeRangeKind
  | 0 => CodeRangeKind.Function
  | 1 => CodeRangeKind.Entry
  | 2 => CodeRangeKind.Inline
  | _ => CodeRangeKind.Thunk

theorem codeRangeKindOfTag_tag (k : CodeRangeKind) :
    codeRangeKindOfTag k.tag = k := by
  cases k <;> rfl

theorem codeRangeKindTag_lt (k : CodeRangeKind) : u32Ok k.tag := by
  cases k <;> (unfold u32Ok; decide)

def CodeRangeOk (r : CodeRange) : Prop :=
  u32Ok r.nameIndex_ ∧ u32Ok r.lineNumber_ ∧ u32Ok r.begin_ ∧
  u32Ok r.profilingReturn_ ∧ u32Ok r.end_ ∧ u32Ok r.beginToEntry_ ∧
  u32Ok r.profilingJumpToProfilingReturn_ ∧
  u32Ok r.profilingEpilogueToProfilingReturn_ ∧ u32Ok r.thunkTarget_

instance (r : CodeRange) : Decidable (CodeRangeOk r) := by
  unfold CodeRangeOk; infer_instance

/-- SerializePodVector element image of a CodeRange record. -/
def encCodeRange (r : CodeRange) : List Nat :=
  WriteScalar32 r.kind_.tag ++
  (WriteScalar32 r.nameIndex_ ++
  (WriteScalar32 r.lineNumber_ ++
  (WriteScalar32 r.begin_ ++
  (WriteScalar32 r.profilingReturn_ ++
  (WriteScalar32 r.end_ ++
  (WriteScalar32 r.beginToEntry_ ++
  (WriteScalar32 r.profilingJumpToProfilingReturn_ ++
  (WriteScalar32 r.profilingEpilogueToProfilingReturn_ ++
  WriteScalar32 r.thunkTarget_))))))))

def decCodeRange (bs : List Nat) : Option (CodeRange × List Nat) :=
  (ReadScalar32 bs).bind fun a =>
  (ReadScalar32 a.2).bind fun b =>
  (ReadScalar32 b.2).bind fun c =>
  (ReadScalar32 c.2).bind fun d =>
  (ReadScalar32 d.2).bind fun e =>
  (ReadScalar32 e.2).bind fun f =>
  (ReadScalar32 f.2).bind fun g =>
  (ReadScalar32 g.2).bind fun h =>
  (ReadScalar32 h.2).bind fun i =>
  (ReadScalar32 i.2).bind fun j =>
  some (⟨codeRangeKindOfTag a.1, b.1, c.1, d.1, e.1, f.1, g.1, h.1, i.1, j.1⟩,
    j.2)

theorem decCodeRange_enc (r : CodeRange) (hok : CodeRangeOk r) :
    ∀ rest, decCodeRange (encCodeRange r ++ rest) = some (r, rest) := by
  intro rest
  obtain ⟨h1, h2, h3, h4, h5, h6, h7, h8, h9⟩ := hok
  simp only [encCodeRange, decCodeRange, List.append_assoc]
  rw [readScalar32_write _ (codeRangeKindTag_lt r.kind_), Option.some_bind,
    readScalar32_write _ h1, Option.some_bind,
    readScalar32_write _ h2, Option.some_bind,
    readScalar32_write _ h3, Option.some_bind,
    readScalar32_write _ h4, Option.some_bind,
    readScalar32_write _ h5, Option.some_bind,
    readScalar32_write _ h6, Option.some_bind,
    readScalar32_write _ h7, Option.some_bind,
    readScalar32_write _ h8, Option.some_bind,
    readScalar32_write _ h9, Option.some_bind,
    codeRangeKindOfTag_tag r.kind_]

def FuncPtrTableOk (t : FuncPtrTable) : Prop :=
  u32Ok t.globalDataOffset_ ∧ u32Ok t.numElems_

instance (t : FuncPtrTable) : Decidable (FuncPtrTableOk t) := by
  unfold FuncPtrTableOk; infer_instance

/-- SerializePodVector element image of a FuncPtrTable record. -/
def encFuncPtrTable (t : FuncPtrTable) : List Nat :=
  WriteScalar32 t.globalDataOffset_ ++ WriteScalar32 t.numElems_

def decFuncPtrTable (bs : List Nat) : Option (FuncPtrTable × List Nat) :=
  (ReadScalar32 bs).bind fun a =>
  (ReadScalar32 a.2).bind fun b =>
  some (⟨a.1, b.1⟩, b.2)

theorem decFuncPtrTable_enc (t : FuncPtrTable) (hok : FuncPtrTableOk t) :
    ∀ r, decFuncPtrTable (encFuncPtrTable t ++ r) = some (t, r) := by
  intro r
  obtain ⟨h1, h2⟩ := hok
  simp only [encFuncPtrTable, decFuncPtrTable, List.append_assoc]
  rw [readScalar32_write _ h1, Option.some_bind,
    readScalar32_write _ h2, Option.some_bind]

def HeapAccessOk (a : AsmJSHeapAccess) : Prop :=
  u32Ok a.offset_

instance (a : AsmJSHeapAccess) : Decidable (HeapAccessOk a) := by
  unfold HeapAccessOk; infer_instance

/-- SerializePodVector element image of an AsmJSHeapAccess record. -/
def encHeapAccess (a : AsmJSHeapAccess) : List Nat :=
  WriteScalar32 a.offset_ ++ WriteBool a.hasLengthCheck_

def decHeapAccess (bs : List Nat) : Option (AsmJSHeapAccess × List Nat) :=
  (ReadScalar32 bs).bind fun a =>
  (ReadBool a.2).bind fun b =>
  some (⟨a.1, b.1⟩, b.2)

theorem decHeapAccess_enc (a : AsmJSHeapAccess) (hok : HeapAccessOk a) :
    ∀ r, decHeapAccess (encHeapAccess a ++ r) = some (a, r) := by
  intro r
  simp only [encHeapAccess, decHeapAccess, List.append_assoc]
  rw [readScalar32_write _ hok, Option.some_bind,
    readBool_write _ _, Option.some_bind]

def RelativeLinkOk (l : RelativeLink) : Prop :=
  u32Ok l.kind_ ∧ u32Ok l.patchAtOffset ∧ u32Ok l.targetOffset

instance (l : RelativeLink) : Decidable (RelativeLinkOk l) := by
  unfold RelativeLinkOk; infer_instance

/-- SerializePodVector element image of a RelativeLink record. -/
def encRelativeLink (l : RelativeLink) : List Nat :=
  WriteScalar32 l.kind_ ++
  (WriteScalar32 l.patchAtOffset ++ WriteScalar32 l.targetOffset)

def decRelativeLink (bs : List Nat) : Option (RelativeLink × List Nat) :=
  (ReadScalar32 bs).bind fun a =>
  (ReadScalar32 a.2).bind fun b =>
  (ReadScalar32 b.2).bind fun c =>
  some (⟨a.1, b.1, c.1⟩, c.2)

theorem decRelativeLink_enc (l : RelativeLink) (hok : RelativeLinkOk l) :
    ∀ r, decRelativeLink (encRelativeLink l ++ r) = some (l, r) := by
  intro r
  obtain ⟨h1, h2, h3⟩ := hok
  simp only [encRelativeLink, decRelativeLink, List.append_assoc]
  rw [readScalar32_write _ h1, Option.some_bind,
    readScalar32_write _ h2, Option.some_bind,
    readScalar32_write _ h3, Option.some_bind]

/-- Modelled from the spec: AsmJSImm_Limit, the number of symbolic
external-address kinds (the closed bucket set of the AbsoluteLinkArray)
on the non-ARM targets of AsmJSModule.cpp. -/
def AsmJSImm_Limit : Nat := 26

def StaticLinkDataOk (s : StaticLinkData) : Prop :=
  u32Ok s.interruptExitOffset ∧ VecOk RelativeLinkOk s.relativeLinks ∧
  s.absoluteLinks.length = AsmJSImm_Limit ∧
  ∀ row ∈ s.absoluteLinks, VecOk u32Ok row

instance (s : StaticLinkData) : Decidable (StaticLinkDataOk s) := by
  unfold StaticLinkDataOk; infer_instance

/-- AsmJSModule::StaticLinkData::serialize: the interrupt-exit offset
word, the relative-link pod vector, then one pod vector of offsets per
immediate kind (AbsoluteLinkArray::serialize). -/
def encStaticLinkData (s : StaticLinkData) : List Nat :=
  WriteScalar32 s.interruptExitOffset ++
  (SerializeVector encRelativeLink s.relativeLinks ++
  encList (SerializeVector WriteScalar32) s.absoluteLinks)

def decStaticLinkData (bs : List Nat) : Option (StaticLinkData × List Nat) :=
  (ReadScalar32 bs).bind fun a =>
  (DeserializeVector decRelativeLink a.2).bind fun b =>
  (ReadListN (DeserializeVector ReadScalar32) AsmJSImm_Limit b.2).bind fun c =>
  some (⟨a.1, b.1, c.1⟩, c.2)

theorem decStaticLinkData_enc (s : StaticLinkData) (hok : StaticLinkDataOk s) :
    ∀ r, decStaticLinkData (encStaticLinkData s ++ r) = some (s, r) := by
  intro r
  obtain ⟨h1, ⟨h2a, h2b⟩, h3, h4⟩ := hok
  simp only [encStaticLinkData, decStaticLinkData, List.append_assoc]
  rw [readScalar32_write _ h1, Option.some_bind,
    deserializeVector_serialize decRelativeLink encRelativeLink
      s.relativeLinks h2a
      (fun x hx r2 => decRelativeLink_enc x (h2b x hx) r2), Option.some_bind,
    ← h3,
    readListN_encList (DeserializeVector ReadScalar32)
      (SerializeVector WriteScalar32) s.absoluteLinks
      (fun row hrow r2 =>
        deserializeVector_serialize ReadScalar32 WriteScalar32 row
          (h4 row hrow).1
          (fun c hc r3 => readScalar32_write c ((h4 row hrow).2 c hc) r3) r2) r,
    Option.some_bind]

/-- The serialized state of an AsmJSModule: the POD header, the image
code bytes, the three argument names, the metadata tables and the
static-link data, in the fixed field order of
AsmJSModule::serialize.  (The MOZ_VTUNE / JS_ION_PERF profiled-function
table is compiled out in the modelled release configuration.) -/
structure AsmJSModule where
  pod : AsmJSModulePod
  code : List Nat
  globalArgumentName_ : Option PName
  importArgumentName_ : Option PName
  bufferArgumentName_ : Option PName
  globals_ : List Global
  exits_ : List Exit
  exports_ : List ExportedFunction
  callSites_ : List CallSite
  codeRanges_ : List CodeRange
  funcPtrTables_ : List FuncPtrTable
  builtinThunkOffsets_ : List Nat
  names_ : List (Option PName)
  heapAccesses_ : List AsmJSHeapAccess
  staticLinkData_ : StaticLinkData
deriving DecidableEq, Repr

/-- AsmJSModule::serialize: pod, the first codeBytes bytes of the image,
the three argument names, each table in the fixed order, then the
static-link data. -/
def AsmJSModule.serialize (m : AsmJSModule) : List Nat :=
  encAsmJSModulePod m.pod ++
  (m.code.take m.pod.codeBytes_ ++
  (SerializeName m.globalArgumentName_ ++
  (SerializeName m.importArgumentName_ ++
  (SerializeName m.bufferArgumentName_ ++
  (SerializeVector encGlobal m.globals_ ++
  (SerializeVector encExit m.exits_ ++
  (SerializeVector encExportedFunction m.exports_ ++
  (SerializeVector encCallSite m.callSites_ ++
  (SerializeVector encCodeRange m.codeRanges_ ++
  (SerializeVector encFuncPtrTable m.funcPtrTables_ ++
  (SerializeVector WriteScalar32 m.builtinThunkOffsets_ ++
  (SerializeVector SerializeName m.names_ ++
  (SerializeVector encHeapAccess m.heapAccesses_ ++
  encStaticLinkData m.staticLinkData_)))))))))))))

/-- AsmJSModule::deserialize: the mirror reads in the same fixed order;
any short read yields none (CorruptCache). -/
def AsmJSModule.deserialize (bs : List Nat) :
    Option (AsmJSModule × List Nat) :=
  match decAsmJSModulePod bs with
  | none => none
  | some a =>
  match ReadBytesN a.1.codeBytes_ a.2 with
  | none => none
  | some code =>
  match DeserializeName code.2 with
  | none => none
  | some n1 =>
  match DeserializeName n1.2 with
  | none => none
  | some n2 =>
  match DeserializeName n2.2 with
  | none => none
  | some n3 =>
  match DeserializeVector decGlobal n3.2 with
  | none => none
  | some g =>
  match DeserializeVector decExit g.2 with
  | none => none
  | some e =>
  match DeserializeVector decExportedFunction e.2 with
  | none => none
  | some x =>
  match DeserializeVector decCallSite x.2 with
  | none => none
  | some c =>
  match DeserializeVector decCodeRange c.2 with
  | none => none
  | some cr =>
  match DeserializeVector decFuncPtrTable cr.2 with
  | none => none
  | some fp =>
  match DeserializeVector ReadScalar32 fp.2 with
  | none => none
  | some bt =>
  match DeserializeVector DeserializeName bt.2 with
  | none => none
  | some nm =>
  match DeserializeVector decHeapAccess nm.2 with
  | none => none
  | some ha =>
  match decStaticLinkData ha.2 with
  | none => none
  | some sl =>
  some (⟨a.1, code.1, n1.1, n2.1, n3.1, g.1, e.1, x.1, c.1, cr.1, fp.1,
    bt.1, nm.1, ha.1, sl.1⟩, sl.2)

/-- Wellformedness of a constructed module for the codec: every field
fits its serialized width, names obey the SerializeName contract, the
absolute-link array has one row per immediate kind, and the image holds
exactly codeBytes code bytes. -/
def AsmJSModuleWF (m : AsmJSModule) : Prop :=
  AsmJSModulePodOk m.pod ∧
  m.code.length = m.pod.codeBytes_ ∧
  NameOk m.globalArgumentName_ ∧
  NameOk m.importArgumentName_ ∧
  NameOk m.bufferArgumentName_ ∧
  VecOk GlobalOk m.globals_ ∧
  VecOk ExitOk m.exits_ ∧
  VecOk ExportedFunctionOk m.exports_ ∧
  VecOk CallSiteOk m.callSites_ ∧
  VecOk CodeRangeOk m.codeRanges_ ∧
  VecOk FuncPtrTableOk m.funcPtrTables_ ∧
  VecOk u32Ok m.builtinThunkOffsets_ ∧
  VecOk NameOk m.names_ ∧
  VecOk HeapAccessOk m.heapAccesses_ ∧
  StaticLinkDataOk m.staticLinkData_

instance (m : AsmJSModule) : Decidable (AsmJSModuleWF m) := by
  unfold AsmJSModuleWF; infer_instance

/-- C2: deserializing the byte sequence produced by serialize(M) yields
a module whose code bytes and whose global / exit / export / call-site /
code-range / function-pointer-table / builtin-thunk / name / heap-access
tables and static-link data are field-for-field equal to M's, with the
deserialize cursor consuming exactly the bytes serialize produced (any
trailing bytes are left for the caller). -/
theorem AsmJSModule.deserialize_serialize (m : AsmJSModule)
    (hwf : AsmJSModuleWF m) (rest : List Nat) :
    AsmJSModule.deserialize (m.serialize ++ rest) = some (m, rest) := by
  obtain ⟨hpod, hcode, hn1, hn2, hn3, ⟨hg1, hg2⟩, ⟨he1, he2⟩, ⟨hx1, hx2⟩,
    ⟨hc1, hc2⟩, ⟨hcr1, hcr2⟩, ⟨hfp1, hfp2⟩, ⟨hbt1, hbt2⟩, ⟨hnm1, hnm2⟩,
    ⟨hha1, hha2⟩, hsl⟩ := hwf
  have htake : m.code.take m.pod.codeBytes_ = m.code := by
    rw [← hcode, List.take_length]
  simp only [AsmJSModule.serialize, AsmJSModule.deserialize, htake,
    List.append_assoc,
    decAsmJSModulePod_enc m.pod hpod,
    readBytesN_exact m.code m.pod.codeBytes_ hcode,
    deserializeName_serialize m.globalArgumentName_ hn1,
    deserializeName_serialize m.importArgumentName_ hn2,
    deserializeName_serialize m.bufferArgumentName_ hn3,
    deserializeVector_serialize decGlobal encGlobal m.globals_ hg1
      (fun x hx r2 => decGlobal_enc x (hg2 x hx) r2),
    deserializeVector_serialize decExit encExit m.exits_ he1
      (fun x hx r2 => decExit_enc x (he2 x hx) r2),
    deserializeVector_serialize decExportedFunction encExportedFunction
      m.exports_ hx1
      (fun x hx r2 => decExportedFunction_enc x (hx2 x hx) r2),
    deserializeVector_serialize decCallSite encCallSite m.callSites_ hc1
      (fun x hx r2 => decCallSite_enc x (hc2 x hx) r2),
    deserializeVector_serialize decCodeRange encCodeRange m.codeRanges_ hcr1
      (fun x hx r2 => decCodeRange_enc x (hcr2 x hx) r2),
    deserializeVector_serialize decFuncPtrTable encFuncPtrTable
      m.funcPtrTables_ hfp1
      (fun x hx r2 => decFuncPtrTable_enc x (hfp2 x hx) r2),
    deserializeVector_serialize ReadScalar32 WriteScalar32
      m.builtinThunkOffsets_ hbt1
      (fun x hx r2 => readScalar32_write x (hbt2 x hx) r2),
    deserializeVector_serialize DeserializeName SerializeName m.names_ hnm1
      (fun x hx r2 => deserializeName_serialize x (hnm2 x hx) r2),
    deserializeVector_serialize decHeapAccess encHeapAccess
      m.heapAccesses_ hha1
      (fun x hx r2 => decHeapAccess_enc x (hha2 x hx) r2),
    decStaticLinkData_enc m.staticLinkData_ hsl,
    Option.some_bind]

/-- Witness for C2 at a concrete module with one entry in each table:
the round trip reproduces the module exactly and leaves the trailing
bytes. -/
theorem deserialize_serialize_witness :
    AsmJSModuleWF
      ⟨⟨1, 0, 3, 4096, 65536, 10, 11, true, false⟩, [222, 173, 190],
        some ⟨true, [103]⟩, none, none,
        [⟨⟨0, 7⟩, some ⟨true, [97]⟩⟩], [⟨1, 2, 3⟩],
        [⟨some ⟨true, [102]⟩, none, [0, 1], ⟨5⟩⟩],
        [⟨0, 3, 2⟩],
        [⟨CodeRangeKind.Function, 0, 1, 0, 30, 40, 5, 8, 4, 0⟩],
        [⟨8, 2⟩], [9], [some ⟨false, [300]⟩], [⟨4, true⟩],
        ⟨5, [⟨0, 16, 32⟩], List.replicate 26 []⟩⟩ ∧
    AsmJSModule.deserialize
      (AsmJSModule.serialize
        ⟨⟨1, 0, 3, 4096, 65536, 10, 11, true, false⟩, [222, 173, 190],
          some ⟨true, [103]⟩, none, none,
          [⟨⟨0, 7⟩, some ⟨true, [97]⟩⟩], [⟨1, 2, 3⟩],
          [⟨some ⟨true, [102]⟩, none, [0, 1], ⟨5⟩⟩],
          [⟨0, 3, 2⟩],
          [⟨CodeRangeKind.Function, 0, 1, 0, 30, 40, 5, 8, 4, 0⟩],
          [⟨8, 2⟩], [9], [some ⟨false, [300]⟩], [⟨4, true⟩],
          ⟨5, [⟨0, 16, 32⟩], List.replicate 26 []⟩⟩ ++ [9, 9]) =
      some
        (⟨⟨1, 0, 3, 4096, 65536, 10, 11, true, false⟩, [222, 173, 190],
          some ⟨true, [103]⟩, none, none,
          [⟨⟨0, 7⟩, some ⟨true, [97]⟩⟩], [⟨1, 2, 3⟩],
          [⟨some ⟨true, [102]⟩, none, [0, 1], ⟨5⟩⟩],
          [⟨0, 3, 2⟩],
          [⟨CodeRangeKind.Function, 0, 1, 0, 30, 40, 5, 8, 4, 0⟩],
          [⟨8, 2⟩], [9], [some ⟨false, [300]⟩], [⟨4, true⟩],
          ⟨5, [⟨0, 16, 32⟩], List.replicate 26 []⟩⟩, [9, 9]) :=
  ⟨by decide,
   AsmJSModule.deserialize_serialize _ (by decide) [9, 9]⟩

/-- SerializedNameSize: the length-and-encoding word plus one byte per
latin1 code unit or two per jschar code unit; zero payload for the null
name. -/
def SerializedNameSize : Option PName → Nat
  | none => 4
  | some n => 4 + n.chars.length * (if n.latin1 then 1 else 2)

/-- Sum of the serialized sizes of the records of a vector. -/
def sumSizes {α : Type} (sz : α → Nat) : List α → Nat
  | [] => 0
  | x :: t => sz x + sumSizes sz t

/-- AsmJSModule::Global::serializedSize: sizeof(pod) plus the name. -/
def Global.serializedSize (g : Global) : Nat :=
  8 + SerializedNameSize g.name_

/-- AsmJSModule::Exit::serializedSize: sizeof the POD record. -/
def Exit.serializedSize (_ : Exit) : Nat := 12

/-- AsmJSModule::ExportedFunction::serializedSize: both names, the
length prefix and elements of the arg-coercion vector, and the pod. -/
def ExportedFunction.serializedSize (f : ExportedFunction) : Nat :=
  SerializedNameSize f.name_ + SerializedNameSize f.maybeFieldName_ +
    4 + f.argCoercions_.length * 4 + 4

/-- AsmJSModule::StaticLinkData::serializedSize: the interrupt-exit
word, the relative-link pod vector, and one pod vector per immediate
kind (AbsoluteLinkArray::serializedSize). -/
def StaticLinkData.serializedSize (s : StaticLinkData) : Nat :=
  4 + (4 + s.relativeLinks.length * 12) +
    sumSizes (fun row => 4 + row.length * 4) s.absoluteLinks

/-- AsmJSModule::serializedSize: sizeof(pod), the code bytes, the three
argument names, each length-prefixed table, and the static-link data. -/
def AsmJSModule.serializedSize (m : AsmJSModule) : Nat :=
  30 +
  m.pod.codeBytes_ +
  SerializedNameSize m.globalArgumentName_ +
  SerializedNameSize m.importArgumentName_ +
  SerializedNameSize m.bufferArgumentName_ +
  (4 + sumSizes Global.serializedSize m.globals_) +
  (4 + sumSizes Exit.serializedSize m.exits_) +
  (4 + sumSizes ExportedFunction.serializedSize m.exports_) +
  (4 + m.callSites_.length * 12) +
  (4 + m.codeRanges_.length * 40) +
  (4 + m.funcPtrTables_.length * 8) +
  (4 + m.builtinThunkOffsets_.length * 4) +
  (4 + sumSizes SerializedNameSize m.names_) +
  (4 + m.heapAccesses_.length * 5) +
  m.staticLinkData_.serializedSize

theorem encList_length {α : Type} (enc : α → List Nat) (sz : α → Nat)
    (xs : List α) (h : ∀ x ∈ xs, (enc x).length = sz x) :
    (encList enc xs).length = sumSizes sz xs := by
  induction xs with
  | nil => rfl
  | cons x t ih =>
    show (enc x ++ encList enc t).length = sz x + sumSizes sz t
    rw [List.length_append, h x (List.mem_cons_self x t),
      ih (fun y hy => h y (List.mem_cons_of_mem x hy))]

theorem serializeVector_length {α : Type} (enc : α → List Nat)
    (sz : α → Nat) (xs : List α) (h : ∀ x ∈ xs, (enc x).length = sz x) :
    (SerializeVector enc xs).length = 4 + sumSizes sz xs := by
  unfold SerializeVector
  rw [List.length_append, encList_length enc sz xs h]
  rfl

theorem writeScalar32_length (n : Nat) : (WriteScalar32 n).length = 4 := rfl

theorem sumSizes_const {α : Type} (k : Nat) (xs : List α) :
    sumSizes (fun _ => k) xs = xs.length * k := by
  induction xs with
  | nil => simp [sumSizes]
  | cons x t ih =>
    show k + sumSizes (fun _ => k) t = (t.length + 1) * k
    rw [ih]
    ring

theorem encChars2_length (cs : List Nat) :
    (encChars2 cs).length = cs.length * 2 := by
  induction cs with
  | nil => rfl
  | cons c t ih =>
    show (encChars2 t).length + 1 + 1 = (t.length + 1) * 2
    rw [ih]
    ring

theorem serializeName_length (onm : Option PName) :
    (SerializeName onm).length = SerializedNameSize onm := by
  rcases onm with _ | n
  · rfl
  · simp only [SerializeName, SerializedNameSize, List.length_append]
    by_cases hl : n.latin1 = true
    · rw [hl, if_pos rfl, if_pos rfl]
      show 4 + n.chars.length = 4 + n.chars.length * 1
      ring
    · rw [if_neg hl, if_neg hl, if_neg hl, encChars2_length,
        writeScalar32_length]

theorem encGlobal_length (g : Global) :
    (encGlobal g).length = Global.serializedSize g := by
  unfold encGlobal Global.serializedSize
  rw [List.length_append, List.length_append, serializeName_length,
    writeScalar32_length, writeScalar32_length]
  omega

theorem encExit_length (e : Exit) :
    (encExit e).length = Exit.serializedSize e := rfl

theorem encExportedFunction_length (f : ExportedFunction) :
    (encExportedFunction f).length = ExportedFunction.serializedSize f := by
  unfold encExportedFunction ExportedFunction.serializedSize
  rw [List.length_append, List.length_append, List.length_append,
    serializeName_length, serializeName_length,
    serializeVector_length WriteScalar32 (fun _ => 4) f.argCoercions_
      (fun x _ => rfl), sumSizes_const, writeScalar32_length]
  omega

theorem encCallSite_length (c : CallSite) : (encCallSite c).length = 12 := rfl

theorem encCodeRange_length (r : CodeRange) : (encCodeRange r).length = 40 := rfl

theorem encFuncPtrTable_length (t : FuncPtrTable) :
    (encFuncPtrTable t).length = 8 := rfl

theorem encHeapAccess_length (a : AsmJSHeapAccess) :
    (encHeapAccess a).length = 5 := rfl

theorem encRelativeLink_length (l : RelativeLink) :
    (encRelativeLink l).length = 12 := rfl

theorem encStaticLinkData_length (s : StaticLinkData) :
    (encStaticLinkData s).length = StaticLinkData.serializedSize s := by
  unfold encStaticLinkData StaticLinkData.serializedSize
  rw [List.length_append, List.length_append,
    serializeVector_length encRelativeLink (fun _ => 12) s.relativeLinks
      (fun x _ => encRelativeLink_length x), sumSizes_const,
    encList_length (SerializeVector WriteScalar32)
      (fun row => 4 + row.length * 4) s.absoluteLinks
      (fun row _ => by
        rw [serializeVector_length WriteScalar32 (fun _ => 4) row
          (fun x _ => rfl), sumSizes_const]),
    writeScalar32_length]
  omega

/-- C10: serialize advances the output cursor by exactly
serializedSize bytes: the size computation and the writer agree
field-for-field over the POD header, the codeBytes image bytes, the
three argument names, each length-prefixed table, and the static-link
data, so the cache buffer sized by serializedSize (as
js::StoreAsmJSModuleInCache asserts) is neither overrun nor
underfilled. -/
theorem AsmJSModule.serialize_length (m : AsmJSModule)
    (hcode : m.pod.codeBytes_ ≤ m.code.length) :
    (AsmJSModule.serialize m).length = AsmJSModule.serializedSize m := by
  unfold AsmJSModule.serialize AsmJSModule.serializedSize
  rw [List.length_append, List.length_append, List.length_append,
    List.length_append, List.length_append, List.length_append,
    List.length_append, List.length_append, List.length_append,
    List.length_append, List.length_append, List.length_append,
    List.length_append, List.length_append]
  rw [show (encAsmJSModulePod m.pod).length = 30 from rfl,
    List.length_take,
    serializeName_length, serializeName_length, serializeName_length,
    serializeVector_length encGlobal Global.serializedSize m.globals_
      (fun x _ => encGlobal_length x),
    serializeVector_length encExit Exit.serializedSize m.exits_
      (fun x _ => encExit_length x),
    serializeVector_length encExportedFunction
      ExportedFunction.serializedSize m.exports_
      (fun x _ => encExportedFunction_length x),
    serializeVector_length encCallSite (fun _ => 12) m.callSites_
      (fun x _ => encCallSite_length x), sumSizes_const,
    serializeVector_length encCodeRange (fun _ => 40) m.codeRanges_
      (fun x _ => encCodeRange_length x), sumSizes_const,
    serializeVector_length encFuncPtrTable (fun _ => 8) m.funcPtrTables_
      (fun x _ => encFuncPtrTable_length x), sumSizes_const,
    serializeVector_length WriteScalar32 (fun _ => 4) m.builtinThunkOffsets_
      (fun x _ => rfl), sumSizes_const,
    serializeVector_length SerializeName SerializedNameSize m.names_
      (fun x _ => serializeName_length x),
    serializeVector_length encHeapAccess (fun _ => 5) m.heapAccesses_
      (fun x _ => encHeapAccess_length x), sumSizes_const,
    encStaticLinkData_length,
    Nat.min_eq_left hcode]
  omega

/-- Witness for C10 at the concrete module of the round-trip witness:
the serialized byte count equals serializedSize. -/
theorem serialize_length_witness :
    (⟨⟨1, 0, 3, 4096, 65536, 10, 11, true, false⟩, [222, 173, 190],
        some ⟨true, [103]⟩, none, none,
        [⟨⟨0, 7⟩, some ⟨true, [97]⟩⟩], [⟨1, 2, 3⟩],
        [⟨some ⟨true, [102]⟩, none, [0, 1], ⟨5⟩⟩],
        [⟨0, 3, 2⟩],
        [⟨CodeRangeKind.Function, 0, 1, 0, 30, 40, 5, 8, 4, 0⟩],
        [⟨8, 2⟩], [9], [some ⟨false, [300]⟩], [⟨4, true⟩],
        ⟨5, [⟨0, 16, 32⟩], List.replicate 26 []⟩⟩ : AsmJSModule).pod.codeBytes_ ≤
      (⟨⟨1, 0, 3, 4096, 65536, 10, 11, true, false⟩, [222, 173, 190],
        some ⟨true, [103]⟩, none, none,
        [⟨⟨0, 7⟩, some ⟨true, [97]⟩⟩], [⟨1, 2, 3⟩],
        [⟨some ⟨true, [102]⟩, none, [0, 1], ⟨5⟩⟩],
        [⟨0, 3, 2⟩],
        [⟨CodeRangeKind.Function, 0, 1, 0, 30, 40, 5, 8, 4, 0⟩],
        [⟨8, 2⟩], [9], [some ⟨false, [300]⟩], [⟨4, true⟩],
        ⟨5, [⟨0, 16, 32⟩], List.replicate 26 []⟩⟩ : AsmJSModule).code.length ∧
    (AsmJSModule.serialize
      ⟨⟨1, 0, 3, 4096, 65536, 10, 11, true, false⟩, [222, 173, 190],
        some ⟨true, [103]⟩, none, none,
        [⟨⟨0, 7⟩, some ⟨true, [97]⟩⟩], [⟨1, 2, 3⟩],
        [⟨some ⟨true, [102]⟩, none, [0, 1], ⟨5⟩⟩],
        [⟨0, 3, 2⟩],
        [⟨CodeRangeKind.Function, 0, 1, 0, 30, 40, 5, 8, 4, 0⟩],
        [⟨8, 2⟩], [9], [some ⟨false, [300]⟩], [⟨4, true⟩],
        ⟨5, [⟨0, 16, 32⟩], List.replicate 26 []⟩⟩).length =
    AsmJSModule.serializedSize
      ⟨⟨1, 0, 3, 4096, 65536, 10, 11, true, false⟩, [222, 173, 190],
        some ⟨true, [103]⟩, none, none,
        [⟨⟨0, 7⟩, some ⟨true, [97]⟩⟩], [⟨1, 2, 3⟩],
        [⟨some ⟨true, [102]⟩, none, [0, 1], ⟨5⟩⟩],
        [⟨0, 3, 2⟩],
        [⟨CodeRangeKind.Function, 0, 1, 0, 30, 40, 5, 8, 4, 0⟩],
        [⟨8, 2⟩], [9], [some ⟨false, [300]⟩], [⟨4, true⟩],
        ⟨5, [⟨0, 16, 32⟩], List.replicate 26 []⟩⟩ :=
  ⟨by decide,
   AsmJSModule.serialize_length _ (by decide)⟩

/-!
AsmJSModule::setProfilingEnabled (x86/x64 arms).  The four patch passes
act on the four patchable slot classes of MutState, each loop iteration
reading and writing only its own slot; the slot lists are parallel to
the metadata tables driving the loops.
-/

/-- Modelled from the spec: BuiltinToImmKind (AsmJS.h, not under src/),
the injection from builtin-thunk kinds into symbolic immediate kinds. -/
def BuiltinToImmKind (b : Nat) : Nat := b

/-- One iteration of the internal call-site pass: for a Relative call
site the current rel32 immediate encodes callee = returnAddress +
immediate; if the callee's code range is a Function the immediate is
retargeted to its profiling entry (begin) when enabling or its fast
entry when disabling. -/
def patchCallSiteImm (rs : List CodeRange) (enabled : Bool) (cs : CallSite)
    (imm : Int) : Int :=
  if cs.kind_ = CallSiteKindRelative then
    match lookupCodeRange rs ((cs.returnAddressOffset_ + imm).toNat) 0 with
    | some cr =>
      if cr.kind_ = CodeRangeKind.Function then
        ((cond enabled cr.begin_ cr.entry : Nat) : Int) -
          (cs.returnAddressOffset_ : Int)
      else imm
    | none => imm
  else imm

def setProfilingCallSites (rs : List CodeRange) (enabled : Bool)
    (css : List CallSite) (imms : List Int) : List Int :=
  List.zipWith (patchCallSiteImm rs enabled) css imms

/-- One element of the function-pointer-table pass: the stored callee is
replaced by the profiling entry (begin) of its code range when enabling
or the fast entry when disabling. -/
def patchFuncPtrElem (rs : List CodeRange) (enabled : Bool) (v : Nat) : Nat :=
  match lookupCodeRange rs v 0 with
  | some cr => cond enabled cr.begin_ cr.entry
  | none => v

def setProfilingFuncPtrs (rs : List CodeRange) (enabled : Bool)
    (vals : List (List Nat)) : List (List Nat) :=
  vals.map (List.map (patchFuncPtrElem rs enabled))

/-- One iteration of the epilogue pass: for a Function range the
reserved two-byte nop 0x66 0x90 at the profiling-jump site becomes the
short jump 0xeb with displacement profilingEpilogue - jump - 2 when
enabling, and is restored to the nop when disabling. -/
def patchEpilogue (enabled : Bool) (cr : CodeRange) (b : Nat × Nat) :
    Nat × Nat :=
  if cr.kind_ = CodeRangeKind.Function then
    cond enabled (0xeb, cr.profilingEpilogue - cr.profilingJump - 2)
      (0x66, 0x90)
  else b

def setProfilingEpilogues (enabled : Bool) (crs : List CodeRange)
    (bytes : List (Nat × Nat)) : List (Nat × Nat) :=
  List.zipWith (patchEpilogue enabled) crs bytes

/-- One patched builtin-call immediate: call sites inside Thunk ranges
are skipped; otherwise the immediate becomes the in-module thunk address
when enabling and the external builtin address when disabling (the
from/to pair swapped by the source when disabling). -/
def patchBuiltinVal (rs : List CodeRange) (enabled : Bool)
    (thunkOff builtinImm off : Nat) (v : Addr) : Addr :=
  match lookupCodeRange rs off 0 with
  | some cr =>
    if cr.kind_ = CodeRangeKind.Thunk then v
    else cond enabled (Addr.codePtr thunkOff) (Addr.extPtr builtinImm)
  | none => v

def setProfilingBuiltins (rs : List CodeRange) (enabled : Bool) :
    Nat → List Nat → List (List Nat) → List (List Addr) → List (List Addr)
  | b, t :: ts, o :: os, v :: vs =>
    List.zipWith (patchBuiltinVal rs enabled t (BuiltinToImmKind b)) o v ::
      setProfilingBuiltins rs enabled (b + 1) ts os vs
  | _, _, _, vs => vs

/-- AsmJSModule::setProfilingEnabled: returns unchanged when the flag
already has the requested value; otherwise runs the four patch passes
over the image and records the new flag. -/
def setProfilingEnabled (enabled : Bool) (m : LinkedModule) : LinkedModule :=
  if m.profilingEnabled_ = enabled then m
  else
    { m with
      profilingEnabled_ := enabled,
      st :=
        { m.st with
          callSiteImms :=
            setProfilingCallSites m.codeRanges_ enabled m.callSites_
              m.st.callSiteImms,
          funcPtrVals := setProfilingFuncPtrs m.codeRanges_ enabled
            m.st.funcPtrVals,
          epilogueBytes := setProfilingEpilogues enabled m.codeRanges_
            m.st.epilogueBytes,
          builtinVals := setProfilingBuiltins m.codeRanges_ enabled 0
            m.builtinThunkOffsets_ m.builtinLinkOffsets_
            m.st.builtinVals } }

/-- Consistency of one Relative call site with its stored immediate in
the unprofiled state: callee = returnAddress + immediate resolves to a
code range, and when that range is a Function the callee is its fast
entry (asserted by the source before patching). -/
def CallSiteImmWF (rs : List CodeRange) (cs : CallSite) (imm : Int) : Prop :=
  cs.kind_ = CallSiteKindRelative →
    0 ≤ (cs.returnAddressOffset_ : Int) + imm ∧
    ∃ cr, lookupCodeRange rs ((cs.returnAddressOffset_ + imm).toNat) 0 =
        some cr ∧
      (cr.kind_ = CodeRangeKind.Function →
        (cs.returnAddressOffset_ : Int) + imm = (cr.entry : Int))

/-- Consistency of one stored function-pointer-table slot in the
unprofiled state: it holds the fast entry of a Function code range. -/
def FuncPtrValWF (rs : List CodeRange) (v : Nat) : Prop :=
  ∃ cr, lookupCodeRange rs v 0 = some cr ∧
    cr.kind_ = CodeRangeKind.Function ∧ v = cr.entry

/-- Consistency of one epilogue slot in the unprofiled state: Function
ranges hold the reserved two-byte nop (asserted by the source). -/
def EpilogueWF (cr : CodeRange) (b : Nat × Nat) : Prop :=
  cr.kind_ = CodeRangeKind.Function → b = (0x66, 0x90)

/-- Consistency of the builtin-call immediates in the unprofiled state,
walking the three parallel per-builtin lists: each non-Thunk call site
holds the external builtin address (the sentinel PatchDataWithValueCheck
expects). -/
def BuiltinValsWF (rs : List CodeRange) :
    Nat → List Nat → List (List Nat) → List (List Addr) → Prop
  | _, [], [], [] => True
  | b, _ :: ts, o :: os, v :: vs =>
    List.Forall₂
      (fun off val => ∃ cr, lookupCodeRange rs off 0 = some cr ∧
        (¬ cr.kind_ = CodeRangeKind.Thunk →
          val = Addr.extPtr (BuiltinToImmKind b))) o v ∧
    BuiltinValsWF rs (b + 1) ts os vs
  | _, _, _, _ => False

/-- The unprofiled-and-consistent precondition of the involution claim:
profiling is off, the code-range table is valid, Function ranges are
non-empty, and every patchable slot holds its unprofiled value. -/
def UnprofiledWF (m : LinkedModule) : Prop :=
  m.profilingEnabled_ = false ∧
  CodeRangesWF m.codeRanges_ ∧
  (∀ cr ∈ m.codeRanges_, cr.kind_ = CodeRangeKind.Function →
    cr.begin_ < cr.end_) ∧
  List.Forall₂ (CallSiteImmWF m.codeRanges_) m.callSites_
    m.st.callSiteImms ∧
  (∀ arr ∈ m.st.funcPtrVals, ∀ v ∈ arr, FuncPtrValWF m.codeRanges_ v) ∧
  List.Forall₂ EpilogueWF m.codeRanges_ m.st.epilogueBytes ∧
  BuiltinValsWF m.codeRanges_ 0 m.builtinThunkOffsets_
    m.builtinLinkOffsets_ m.st.builtinVals

theorem lookupCodeRange_begin (rs : List CodeRange) (hwf : CodeRangesWF rs)
    (cr : CodeRange) (hmem : cr ∈ rs) (hne : cr.begin_ < cr.end_) :
    lookupCodeRange rs cr.begin_ 0 = some cr := by
  rcases lookupCodeRange_finds rs cr.begin_ 0 hwf cr hmem
      (by omega) (by omega) with ⟨r2, hr2⟩
  have hprop := lookupCodeRange_mem_of_some rs cr.begin_ 0 r2 hr2
  have : cr = r2 := codeRanges_unique rs hwf (cr.begin_ - 0) cr r2 hmem hprop.1
    ⟨by omega, by omega⟩ ⟨hprop.2.1, hprop.2.2⟩
  rw [hr2, ← this]

theorem patchCallSiteImm_invol (rs : List CodeRange)
    (hwf : CodeRangesWF rs)
    (hfun : ∀ cr ∈ rs, cr.kind_ = CodeRangeKind.Function →
      cr.begin_ < cr.end_)
    (cs : CallSite) (imm : Int) (h : CallSiteImmWF rs cs imm) :
    patchCallSiteImm rs false cs (patchCallSiteImm rs true cs imm) = imm := by
  unfold patchCallSiteImm
  by_cases hk : cs.kind_ = CallSiteKindRelative
  · rcases h hk with ⟨hpos, cr, hlk, hent⟩
    simp only [if_pos hk, hlk]
    by_cases hf : cr.kind_ = CodeRangeKind.Function
    · simp only [if_pos hf, Bool.cond_true, Bool.cond_false]
      have hmem := (lookupCodeRange_mem_of_some rs _ 0 cr hlk).1
      have hcallee1 :
          ((cs.returnAddressOffset_ : Int) +
            ((cr.begin_ : Int) - (cs.returnAddressOffset_ : Int))).toNat =
            cr.begin_ := by omega
      rw [hcallee1]
      simp only [lookupCodeRange_begin rs hwf cr hmem (hfun cr hmem hf),
        if_pos hf]
      have := hent hf
      omega
    · simp only [if_neg hf, hlk]
  · simp only [if_neg hk]

theorem patchFuncPtrElem_invol (rs : List CodeRange)
    (hwf : CodeRangesWF rs)
    (hfun : ∀ cr ∈ rs, cr.kind_ = CodeRangeKind.Function →
      cr.begin_ < cr.end_)
    (v : Nat) (h : FuncPtrValWF rs v) :
    patchFuncPtrElem rs false (patchFuncPtrElem rs true v) = v := by
  rcases h with ⟨cr, hlk, hf, hv⟩
  unfold patchFuncPtrElem
  have hmem := (lookupCodeRange_mem_of_some rs _ 0 cr hlk).1
  simp only [hlk, Bool.cond_true,
    lookupCodeRange_begin rs hwf cr hmem (hfun cr hmem hf), Bool.cond_false]
  exact hv.symm

theorem patchEpilogue_invol (cr : CodeRange) (b : Nat × Nat)
    (h : EpilogueWF cr b) :
    patchEpilogue false cr (patchEpilogue true cr b) = b := by
  unfold patchEpilogue
  by_cases hf : cr.kind_ = CodeRangeKind.Function
  · simp only [if_pos hf, Bool.cond_true, Bool.cond_false]
    exact (h hf).symm
  · simp only [if_neg hf]

theorem patchBuiltinVal_invol (rs : List CodeRange) (t bimm off : Nat)
    (v : Addr)
    (h : ∃ cr, lookupCodeRange rs off 0 = some cr ∧
      (¬ cr.kind_ = CodeRangeKind.Thunk → v = Addr.extPtr bimm)) :
    patchBuiltinVal rs false t bimm off
      (patchBuiltinVal rs true t bimm off v) = v := by
  rcases h with ⟨cr, hlk, hv⟩
  unfold patchBuiltinVal
  by_cases ht : cr.kind_ = CodeRangeKind.Thunk
  · simp only [hlk, if_pos ht]
  · simp only [hlk, if_neg ht, Bool.cond_true, Bool.cond_false]
    exact (hv ht).symm

theorem zipWith_involution {α β : Type} (f g : α → β → β) (P : α → β → Prop)
    (hfg : ∀ a b, P a b → g a (f a b) = b) :
    ∀ {xs : List α} {ys : List β}, List.Forall₂ P xs ys →
      List.zipWith g xs (List.zipWith f xs ys) = ys := by
  intro xs ys h
  induction h with
  | nil => rfl
  | cons hab _htail ih =>
    simp only [List.zipWith_cons_cons, hfg _ _ hab, ih]

theorem map_involution {α : Type} (f g : α → α) (l : List α)
    (h : ∀ v ∈ l, g (f v) = v) : (l.map f).map g = l := by
  induction l with
  | nil => rfl
  | cons v t ih =>
    simp only [List.map_cons, List.cons.injEq]
    exact ⟨h v (List.mem_cons_self v t),
      ih (fun w hw => h w (List.mem_cons_of_mem v hw))⟩

theorem mapmap_involution {α : Type} (f g : α → α) (ll : List (List α))
    (h : ∀ arr ∈ ll, ∀ v ∈ arr, g (f v) = v) :
    (ll.map (List.map f)).map (List.map g) = ll := by
  induction ll with
  | nil => rfl
  | cons arr t ih =>
    simp only [List.map_cons, List.cons.injEq]
    exact ⟨map_involution f g arr (h arr (List.mem_cons_self arr t)),
      ih (fun a ha v hv => h a (List.mem_cons_of_mem arr ha) v hv)⟩

theorem setProfilingBuiltins_invol (rs : List CodeRange) :
    ∀ (ts : List Nat) (b : Nat) (os : List (List Nat))
      (vs : List (List Addr)),
      BuiltinValsWF rs b ts os vs →
      setProfilingBuiltins rs false b ts os
        (setProfilingBuiltins rs true b ts os vs) = vs := by
  intro ts
  induction ts with
  | nil =>
    intro b os vs _hwf
    rfl
  | cons t ts ih =>
    intro b os vs hwf
    rcases os with _ | ⟨o, os⟩
    · exact False.elim hwf
    · rcases vs with _ | ⟨v, vs⟩
      · exact False.elim hwf
      · rcases hwf with ⟨hrow, htail⟩
        show (List.zipWith (patchBuiltinVal rs false t (BuiltinToImmKind b)) o
            (List.zipWith (patchBuiltinVal rs true t (BuiltinToImmKind b))
              o v)) ::
          setProfilingBuiltins rs false (b + 1) ts os
            (setProfilingBuiltins rs true (b + 1) ts os vs) = v :: vs
        rw [zipWith_involution _ _ _
            (fun off val hp => patchBuiltinVal_invol rs t (BuiltinToImmKind b)
              off val hp) hrow,
          ih (b + 1) os vs htail]

/-- C5: on a dynamically-linked module in the unprofiled state,
setProfilingEnabled(true) followed by setProfilingEnabled(false)
restores every patched slot (internal call-site rel32 targets,
function-pointer-table slots, epilogue nop/jump bytes, and builtin-call
immediates) byte-for-byte, together with the profiling flag: the module
state is exactly the pre-toggle state. -/
theorem setProfilingEnabled_involution (m : LinkedModule)
    (hwf : UnprofiledWF m) :
    setProfilingEnabled false (setProfilingEnabled true m) = m := by
  rcases hwf with ⟨hflag, hcrwf, hfun, hcs, hfp, hep, hbv⟩
  have hcsr : setProfilingCallSites m.codeRanges_ false m.callSites_
      (setProfilingCallSites m.codeRanges_ true m.callSites_
        m.st.callSiteImms) = m.st.callSiteImms :=
    zipWith_involution _ _ _
      (fun cs imm hp => patchCallSiteImm_invol m.codeRanges_ hcrwf hfun
        cs imm hp) hcs
  have hfpr : setProfilingFuncPtrs m.codeRanges_ false
      (setProfilingFuncPtrs m.codeRanges_ true m.st.funcPtrVals) =
      m.st.funcPtrVals :=
    mapmap_involution _ _ _
      (fun arr harr v hv => patchFuncPtrElem_invol m.codeRanges_ hcrwf hfun
        v (hfp arr harr v hv))
  have hepr : setProfilingEpilogues false m.codeRanges_
      (setProfilingEpilogues true m.codeRanges_ m.st.epilogueBytes) =
      m.st.epilogueBytes :=
    zipWith_involution _ _ _
      (fun cr b hp => patchEpilogue_invol cr b hp) hep
  have hbvr := setProfilingBuiltins_invol m.codeRanges_
    m.builtinThunkOffsets_ 0 m.builtinLinkOffsets_ m.st.builtinVals hbv
  have hne1 : ¬ (m.profilingEnabled_ = true) := by
    rw [hflag]
    decide
  unfold setProfilingEnabled
  rw [if_neg hne1]
  dsimp only
  rw [if_neg (by decide : ¬ (true = false))]
  rcases m with ⟨minH, maxH, gran, has, css, crs, fpt, bto, blo, mh, pe, st⟩
  rcases st with ⟨imms, fpv, eb, bv, hpv, hlv⟩
  simp only at hcsr hfpr hepr hbvr hflag
  subst hflag
  simp only [LinkedModule.mk.injEq, MutState.mk.injEq, hcsr, hfpr, hepr,
    hbvr, and_self, and_true, true_and]

/-- Witness for C5 at a concrete module: one Function code range
[0,32) with entry 4, profilingReturn 28, profilingJump 20, epilogue 24;
one Relative call site at offset 12 whose immediate targets the entry;
one one-slot function-pointer table holding the entry; one builtin with
an external-immediate call at offset 8; toggling profiling on and off
restores the module exactly. -/
theorem setProfilingEnabled_involution_witness :
    UnprofiledWF
      ⟨64, 256, 16, [], [⟨0, 12, 0⟩],
        [⟨CodeRangeKind.Function, 0, 1, 0, 28, 32, 4, 8, 4, 0⟩],
        [⟨0, 1⟩], [40], [[8]], none, false,
        ⟨[(4 : Int) - 12], [[4]], [(0x66, 0x90)],
          [[Addr.extPtr (BuiltinToImmKind 0)]], [], []⟩⟩ ∧
    setProfilingEnabled false (setProfilingEnabled true
      ⟨64, 256, 16, [], [⟨0, 12, 0⟩],
        [⟨CodeRangeKind.Function, 0, 1, 0, 28, 32, 4, 8, 4, 0⟩],
        [⟨0, 1⟩], [40], [[8]], none, false,
        ⟨[(4 : Int) - 12], [[4]], [(0x66, 0x90)],
          [[Addr.extPtr (BuiltinToImmKind 0)]], [], []⟩⟩) =
      ⟨64, 256, 16, [], [⟨0, 12, 0⟩],
        [⟨CodeRangeKind.Function, 0, 1, 0, 28, 32, 4, 8, 4, 0⟩],
        [⟨0, 1⟩], [40], [[8]], none, false,
        ⟨[(4 : Int) - 12], [[4]], [(0x66, 0x90)],
          [[Addr.extPtr (BuiltinToImmKind 0)]], [], []⟩⟩ := by
  constructor
  · refine ⟨rfl, by decide, by decide, ?_, ?_, ?_, ?_⟩
    · refine List.Forall₂.cons ?_ List.Forall₂.nil
      intro hk
      refine ⟨by decide, ⟨CodeRangeKind.Function, 0, 1, 0, 28, 32, 4, 8, 4, 0⟩,
        by decide, fun _ => by decide⟩
    · intro arr harr v hv
      simp only [List.mem_singleton] at harr
      subst harr
      simp only [List.mem_singleton] at hv
      subst hv
      exact ⟨⟨CodeRangeKind.Function, 0, 1, 0, 28, 32, 4, 8, 4, 0⟩,
        by decide, rfl, by decide⟩
    · refine List.Forall₂.cons (fun _ => rfl) List.Forall₂.nil
    · refine ⟨?_, trivial⟩
      refine List.Forall₂.cons ?_ List.Forall₂.nil
      exact ⟨⟨CodeRangeKind.Function, 0, 1, 0, 28, 32, 4, 8, 4, 0⟩,
        by decide, fun _ => rfl⟩
  · apply setProfilingEnabled_involution
    refine ⟨rfl, by decide, by decide, ?_, ?_, ?_, ?_⟩
    · refine List.Forall₂.cons ?_ List.Forall₂.nil
      intro hk
      refine ⟨by decide, ⟨CodeRangeKind.Function, 0, 1, 0, 28, 32, 4, 8, 4, 0⟩,
        by decide, fun _ => by decide⟩
    · intro arr harr v hv
      simp only [List.mem_singleton] at harr
      subst harr
      simp only [List.mem_singleton] at hv
      subst hv
      exact ⟨⟨CodeRangeKind.Function, 0, 1, 0, 28, 32, 4, 8, 4, 0⟩,
        by decide, rfl, by decide⟩
    · refine List.Forall₂.cons (fun _ => rfl) List.Forall₂.nil
    · refine ⟨?_, trivial⟩
      refine List.Forall₂.cons ?_ List.Forall₂.nil
      exact ⟨⟨CodeRangeKind.Function, 0, 1, 0, 28, 32, 4, 8, 4, 0⟩,
        by decide, fun _ => rfl⟩

/-!
Cloning.  AsmJSModule::clone allocates a fresh executable region via
AllocateExecutableMemory, memcpy-copies the original image into it, deep
copies every table with CloneVector / ClonePodVector, copies the
profiling flag, and finally calls restoreToInitialState(maybeHeap_) on
the clone so the fresh image is heap-unpatched.  To express that the two
images share no mutable memory, the executable regions live in a store
indexed by allocation identity: allocation hands out a fresh identity,
and every patching operation writes only through its module's own
identity.
-/

/-- The address space of executable regions: the next fresh allocation
identity and the image state of every region. -/
structure AsmJSStore where
  nextId : Nat
  mem : Nat → MutState

/-- Update of one region. -/
def writeMem (mem : Nat → MutState) (id : Nat) (st : MutState) :
    Nat → MutState :=
  fun q => if q = id then st else mem q

/-- A module as the post-finish operations see it, with its image held
by reference into the store (code_ points at an exclusively owned
region). -/
structure ModuleRef where
  minHeapLength_ : Nat
  maxHeapLength_ : Nat
  heapLengthGranularity_ : Nat
  heapAccesses_ : List AsmJSHeapAccess
  callSites_ : List CallSite
  codeRanges_ : List CodeRange
  funcPtrTables_ : List FuncPtrTable
  builtinThunkOffsets_ : List Nat
  builtinLinkOffsets_ : List (List Nat)
  maybeHeap_ : Option ArrayBuffer
  profilingEnabled_ : Bool
  bufferId : Nat

/-- The observable state of a module: its image contents and all of its
module-object state (tables, heap binding, profiling flag). -/
def observe (m : ModuleRef) (σ : AsmJSStore) : MutState × ModuleRef :=
  (σ.mem m.bufferId, m)

/-- The four profiling patch passes applied to an image state (the body
of setProfilingEnabled once the flag test has passed). -/
def profilingPatch (m : ModuleRef) (enabled : Bool) (st : MutState) :
    MutState :=
  { st with
    callSiteImms := setProfilingCallSites m.codeRanges_ enabled
      m.callSites_ st.callSiteImms,
    funcPtrVals := setProfilingFuncPtrs m.codeRanges_ enabled
      st.funcPtrVals,
    epilogueBytes := setProfilingEpilogues enabled m.codeRanges_
      st.epilogueBytes,
    builtinVals := setProfilingBuiltins m.codeRanges_ enabled 0
      m.builtinThunkOffsets_ m.builtinLinkOffsets_ st.builtinVals }

/-- The post-finish mutating operations of the claim. -/
inductive ModuleOp where
  | initHeapOp (heap : ArrayBuffer)
  | restoreOp
  | setProfilingOp (enabled : Bool)

/-- One mutating operation on a module: each reads and writes only the
image region owned by the module's own bufferId, exactly as initHeap,
restoreToInitialState and setProfilingEnabled patch only through
code_. -/
def applyOp (op : ModuleOp) (m : ModuleRef) (σ : AsmJSStore) :
    ModuleRef × AsmJSStore :=
  match op with
  | ModuleOp.initHeapOp heap =>
    if validHeapLength heap.byteLength m.minHeapLength_ m.maxHeapLength_
        m.heapLengthGranularity_ then
      ({ m with maybeHeap_ := some heap },
       { σ with mem := (writeMem σ.mem m.bufferId
           (initHeapPatchX86 m.heapAccesses_ heap.dataPtr heap.byteLength
             (σ.mem m.bufferId))) })
    else (m, σ)
  | ModuleOp.restoreOp =>
    match m.maybeHeap_ with
    | some prev =>
      ({ m with maybeHeap_ := none },
       { σ with mem := (writeMem σ.mem m.bufferId
           (restoreHeapPatchX86 m.heapAccesses_ prev.dataPtr
             (σ.mem m.bufferId))) })
    | none => ({ m with maybeHeap_ := none }, σ)
  | ModuleOp.setProfilingOp enabled =>
    if m.profilingEnabled_ = enabled then (m, σ)
    else
      ({ m with profilingEnabled_ := enabled },
       { σ with mem := (writeMem σ.mem m.bufferId
           (profilingPatch m enabled (σ.mem m.bufferId))) })

def applyOps : List ModuleOp → ModuleRef → AsmJSStore →
    ModuleRef × AsmJSStore
  | [], m, σ => (m, σ)
  | op :: ops, m, σ =>
    let p := applyOp op m σ
    applyOps ops p.1 p.2

/-- AsmJSModule::clone: a fresh region is allocated
(AllocateExecutableMemory hands out a new identity), the image bytes are
copied into it, every table is deep-copied into the new module value,
the profiling flag is copied, the clone starts with no heap bound, and
restoreToInitialState(maybeHeap_) un-patches the copied heap-access
sites when the original had a heap attached. -/
def clone (m : ModuleRef) (σ : AsmJSStore) : ModuleRef × AsmJSStore :=
  let fresh := σ.nextId
  let copied := σ.mem m.bufferId
  let restored :=
    match m.maybeHeap_ with
    | some prev => restoreHeapPatchX86 m.heapAccesses_ prev.dataPtr copied
    | none => copied
  ({ m with bufferId := fresh, maybeHeap_ := none },
   { nextId := σ.nextId + 1, mem := writeMem σ.mem fresh restored })

theorem applyOp_bufferId (op : ModuleOp) (m : ModuleRef) (σ : AsmJSStore) :
    ((applyOp op m σ).1).bufferId = m.bufferId := by
  rcases op with heap | _ | enabled
  · simp only [applyOp]
    by_cases hv : validHeapLength heap.byteLength m.minHeapLength_
        m.maxHeapLength_ m.heapLengthGranularity_ = true
    · rw [if_pos hv]
    · rw [if_neg hv]
  · rcases hmh : m.maybeHeap_ with _ | prev <;> simp only [applyOp, hmh]
  · simp only [applyOp]
    by_cases hv : m.profilingEnabled_ = enabled
    · rw [if_pos hv]
    · rw [if_neg hv]

theorem applyOp_frame (op : ModuleOp) (m : ModuleRef) (σ : AsmJSStore)
    (k : Nat) (hk : k ≠ m.bufferId) :
    ((applyOp op m σ).2).mem k = σ.mem k := by
  rcases op with heap | _ | enabled
  · simp only [applyOp]
    by_cases hv : validHeapLength heap.byteLength m.minHeapLength_
        m.maxHeapLength_ m.heapLengthGranularity_ = true
    · rw [if_pos hv]
      show writeMem σ.mem m.bufferId _ k = σ.mem k
      unfold writeMem
      rw [if_neg hk]
    · rw [if_neg hv]
  · rcases hmh : m.maybeHeap_ with _ | prev <;> simp only [applyOp, hmh]
    show writeMem σ.mem m.bufferId _ k = σ.mem k
    unfold writeMem
    rw [if_neg hk]
  · simp only [applyOp]
    by_cases hv : m.profilingEnabled_ = enabled
    · rw [if_pos hv]
    · rw [if_neg hv]
      show writeMem σ.mem m.bufferId _ k = σ.mem k
      unfold writeMem
      rw [if_neg hk]

theorem applyOps_frame (ops : List ModuleOp) :
    ∀ (m : ModuleRef) (σ : AsmJSStore) (k : Nat), k ≠ m.bufferId →
      ((applyOps ops m σ).2).mem k = σ.mem k := by
  induction ops with
  | nil => intro m σ k _; rfl
  | cons op ops ih =>
    intro m σ k hk
    show ((applyOps ops (applyOp op m σ).1 (applyOp op m σ).2).2).mem k = _
    rw [ih (applyOp op m σ).1 (applyOp op m σ).2 k
      (by rw [applyOp_bufferId]; exact hk)]
    exact applyOp_frame op m σ k hk

theorem clone_bufferId (m : ModuleRef) (σ : AsmJSStore) :
    ((clone m σ).1).bufferId = σ.nextId := rfl

/-- C9: after a successful clone, the clone's image lives in a region
distinct from the original's, and any sequence of heap
attach/detach (initHeap / restoreToInitialState) and profiling-toggle
operations applied to the original leaves every observable of the clone
(image contents, tables, heap binding, profiling flag) unchanged, and
symmetrically operations on the clone leave the original's observables
unchanged.  The hypothesis is the allocator invariant that the
original's region was allocated earlier. -/
theorem clone_independence (m : ModuleRef) (σ : AsmJSStore)
    (hid : m.bufferId < σ.nextId) :
    ((clone m σ).1).bufferId ≠ m.bufferId ∧
    (∀ ops : List ModuleOp,
      observe (clone m σ).1 (applyOps ops m (clone m σ).2).2 =
        observe (clone m σ).1 (clone m σ).2) ∧
    (∀ ops : List ModuleOp,
      observe m (applyOps ops (clone m σ).1 (clone m σ).2).2 =
        observe m (clone m σ).2) := by
  have hne : ((clone m σ).1).bufferId ≠ m.bufferId := by
    rw [clone_bufferId]
    omega
  refine ⟨hne, ?_, ?_⟩
  · intro ops
    unfold observe
    rw [applyOps_frame ops m (clone m σ).2 ((clone m σ).1).bufferId hne]
  · intro ops
    unfold observe
    rw [applyOps_frame ops (clone m σ).1 (clone m σ).2 m.bufferId
      (fun h => hne h.symm)]

/-- Witness for C9: a one-region store and a module owning region 0;
after cloning, toggling profiling on the original does not change the
clone's observables. -/
theorem clone_independence_witness :
    (0 : Nat) < 1 ∧
    observe
      (clone
        ⟨64, 256, 16, [], [], [], [], [], [], none, false, 0⟩
        ⟨1, fun _ => ⟨[], [], [], [], [], []⟩⟩).1
      (applyOps [ModuleOp.setProfilingOp true]
        ⟨64, 256, 16, [], [], [], [], [], [], none, false, 0⟩
        (clone
          ⟨64, 256, 16, [], [], [], [], [], [], none, false, 0⟩
          ⟨1, fun _ => ⟨[], [], [], [], [], []⟩⟩).2).2 =
    observe
      (clone
        ⟨64, 256, 16, [], [], [], [], [], [], none, false, 0⟩
        ⟨1, fun _ => ⟨[], [], [], [], [], []⟩⟩).1
      (clone
        ⟨64, 256, 16, [], [], [], [], [], [], none, false, 0⟩
        ⟨1, fun _ => ⟨[], [], [], [], [], []⟩⟩).2 :=
  ⟨by decide,
   (clone_independence
      ⟨64, 256, 16, [], [], [], [], [], [], none, false, 0⟩
      ⟨1, fun _ => ⟨[], [], [], [], [], []⟩⟩ (by decide)).2.1
     [ModuleOp.setProfilingOp true]⟩

end AsmJS
